import Mathlib

/-!
Shallow embedding of poezio's message buffer (`src/text_buffer.py`) and of the
tab-slot multiplexer / event-loop fragments of `src/core/core.py`, together
with theorems settling the specification claims.

Conventions used throughout:
* Python `None` becomes `Option.none`; Python truthiness is spelled out at
  each use site (`None`/empty string/`GapTab` are falsy, a `datetime` is
  always truthy).
* Python `datetime` objects are the `DateTime` record below; only the fields
  printed by the two `strftime` formats used in `text_buffer.py` are kept.
* Opaque object handles (the `user` identity objects) become `Option Nat`;
  Python `is`-identity on them becomes equality of handles.
* Strings are manipulated character-wise (`String.data`), matching Python's
  character-level `len`, slicing and `replace`.
-/

namespace Poezio

/-- Calendar timestamp standing for a Python `datetime` value. -/
structure DateTime where
  year : Nat
  month : Nat
  day : Nat
  hour : Nat
  minute : Nat
  second : Nat
deriving DecidableEq, Repr

/-- Zero-padded two-digit field, as printed by `%H`, `%M`, `%S`, `%m`, `%d`. -/
def pad2 (n : Nat) : String :=
  if n < 10 then "0" ++ toString n else toString n

/-- Zero-padded four-digit field, as printed by `%Y`. -/
def pad4 (n : Nat) : String :=
  if n < 10 then "000" ++ toString n
  else if n < 100 then "00" ++ toString n
  else if n < 1000 then "0" ++ toString n
  else toString n

/-- Source `time.strftime("%H:%M:%S")`: the display time of a live message. -/
def DateTime.fmtHMS (t : DateTime) : String :=
  pad2 t.hour ++ ":" ++ pad2 t.minute ++ ":" ++ pad2 t.second

/-- Source `time.strftime("%Y-%m-%d %H:%M:%S")`: the display time of a history
(replayed) message. -/
def DateTime.fmtFull (t : DateTime) : String :=
  pad4 t.year ++ "-" ++ pad2 t.month ++ "-" ++ pad2 t.day ++ " " ++ t.fmtHMS

/-- Python `s.startswith(p)`, character-level. -/
def pyStartsWith (s p : String) : Bool :=
  p.data.isPrefixOf s.data

/-- Python `s[n:]`, character-level. -/
def pyDropChars (s : String) (n : Nat) : String :=
  ⟨s.data.drop n⟩

/-- Python `s.replace(old, new)` for a one-character pattern `old` (the only
shape used by the source: `txt.replace('\t', '    ')`). -/
def pyReplaceChar (s : String) (old : Char) (new : String) : String :=
  ⟨s.data.flatMap (fun c => if c = old then new.data else [c])⟩

/-- The `CorrectionError` messages raised by `TextBuffer.modify_message`. -/
inductive CorrectionError where
  | wrongUser
  | delayedMessage
  | nothingToReplace
deriving DecidableEq, Repr

/-- One stored message (class `Message`, text_buffer.py:23-38).  `user` is the
opaque author-identity handle (`none` when unset), `identifier` the external
correlation id, `old_message` the backward revision link, `revisions` the
revision count. -/
inductive Message where
  | mk (txt : String) (nick_color : Option Nat) (time : DateTime) (str_time : String)
      (nickname : Option String) (user : Option Nat) (identifier : Option String)
      (highlight : Bool) (me : Bool) (old_message : Option Message) (revisions : Nat)

def Message.txt : Message → String
  | .mk t _ _ _ _ _ _ _ _ _ _ => t

def Message.nick_color : Message → Option Nat
  | .mk _ c _ _ _ _ _ _ _ _ _ => c

def Message.time : Message → DateTime
  | .mk _ _ t _ _ _ _ _ _ _ _ => t

def Message.str_time : Message → String
  | .mk _ _ _ s _ _ _ _ _ _ _ => s

def Message.nickname : Message → Option String
  | .mk _ _ _ _ n _ _ _ _ _ _ => n

def Message.user : Message → Option Nat
  | .mk _ _ _ _ _ u _ _ _ _ _ => u

def Message.identifier : Message → Option String
  | .mk _ _ _ _ _ _ i _ _ _ _ => i

def Message.highlight : Message → Bool
  | .mk _ _ _ _ _ _ _ h _ _ _ => h

def Message.me : Message → Bool
  | .mk _ _ _ _ _ _ _ _ m _ _ => m

def Message.old_message : Message → Option Message
  | .mk _ _ _ _ _ _ _ _ _ o _ => o

def Message.revisions : Message → Nat
  | .mk _ _ _ _ _ _ _ _ _ _ r => r

/-- Number of `old_message` links until a message with no previous revision. -/
def Message.chainDepth : Message → Nat
  | .mk _ _ _ _ _ _ _ _ _ none _ => 0
  | .mk _ _ _ _ _ _ _ _ _ (some p) _ => p.chainDepth + 1

/-- Follow the `old_message` (previous revision) link `n` times. -/
def Message.followPrev : Nat → Message → Option Message
  | 0, m => some m
  | n + 1, m =>
    match m.old_message with
    | some p => Message.followPrev n p
    | none => none

/-- Theme value `get_theme().COLOR_ME_MESSAGE[0]`: external configuration (the
theming module is not part of the verified core); the concrete value is
irrelevant to every claim, any fixed string behaves identically. -/
def color_me_message_0 : String := "5"

/-- Method `TextBuffer.make_message` (text_buffer.py:89-108).  `now` stands for
`datetime.now()`; `time or datetime.now()` picks `now` exactly when `time` is
`None` (a datetime object is always truthy).  Note the source's `str_time`
expression: when a `str_time` argument IS supplied the stored field is the
empty string `''`, not the supplied value. -/
def make_message (now : DateTime) (txt : String) (time : Option DateTime)
    (nickname : Option String) (nick_color : Option Nat) (history : Bool)
    (user : Option Nat) (identifier : Option String) (str_time : Option String)
    (highlight : Bool) (old_message : Option Message) (revisions : Nat) : Message :=
  let time := time.getD now
  let me := pyStartsWith txt "/me "
  let txt := if me then "\x19" ++ color_me_message_0 ++ "\x7d" ++ pyDropChars txt 4 else txt
  Message.mk (pyReplaceChar txt '\t' "    " ++ "\x19o") nick_color time
    (if str_time.isNone then (if history then time.fmtFull else time.fmtHMS) else "")
    nickname user identifier highlight me old_message revisions

/-- State of a `TextBuffer` (text_buffer.py:69-79): the configured bound and the
message list.  The attached rendering windows (`self.windows`) are external
curses views (terminal rendering is out of the verified scope); they influence
only the rendered-line count returned by `add_message`, never the stored
messages. -/
structure TextBuffer where
  messages_nb_limit : Nat
  messages : List Message

/-- Loop `while len(self.messages) > self.messages_nb_limit: self.messages.pop(0)`
(text_buffer.py:113-114). -/
def popFrontWhileOver (limit : Nat) : List Message → List Message
  | [] => []
  | m :: ms => if ms.length + 1 > limit then popFrontWhileOver limit ms else m :: ms

/-- Method `TextBuffer.add_message` (text_buffer.py:110-123): build the message,
append it, evict from the front while over the limit. -/
def TextBuffer.add_message (buf : TextBuffer) (now : DateTime) (txt : String)
    (time : Option DateTime) (nickname : Option String) (nick_color : Option Nat)
    (history : Bool) (user : Option Nat) (highlight : Bool)
    (identifier : Option String) (str_time : Option String) : TextBuffer :=
  let msg := make_message now txt time nickname nick_color history user identifier
    str_time highlight none 0
  { buf with messages := popFrontWhileOver buf.messages_nb_limit (buf.messages ++ [msg]) }

/-- The scan `for i in range(len(self.messages)-1, -1, -1)` of
`modify_message`: the index (and content) of the most recent message whose
`identifier == old_id`.  The counter argument is the number of indices still
to examine, so the scan starts at `msgs.length`. -/
def findLastMatch (msgs : List Message) (old_id : Option String) : Nat → Option (Nat × Message)
  | 0 => none
  | i + 1 =>
    match msgs.get? i with
    | some m => if m.identifier = old_id then some (i, m) else findLastMatch msgs old_id i
    | none => findLastMatch msgs old_id i

/-- Method `TextBuffer.modify_message` (text_buffer.py:125-138).  The result pairs
the post-state with either the raised `CorrectionError` or the new message.
Every `raise` in the source happens before the single mutation
`self.messages[i] = message`, so the post-state on every error path is the
unchanged input state.  `msg.user and msg.user is not user` is Python
truthiness on the identity handle followed by an identity comparison. -/
def TextBuffer.modify_message (buf : TextBuffer) (now : DateTime) (txt : String)
    (old_id new_id : Option String) (highlight : Bool) (time : Option DateTime)
    (user : Option Nat) : TextBuffer × Except CorrectionError Message :=
  match findLastMatch buf.messages old_id buf.messages.length with
  | none => (buf, .error .nothingToReplace)
  | some (i, msg) =>
    if msg.user.isSome ∧ msg.user ≠ user then (buf, .error .wrongUser)
    else if msg.str_time.length > 8 then (buf, .error .delayedMessage)
    else
      let message := make_message now txt (some (time.getD msg.time)) msg.nickname
        msg.nick_color false msg.user new_id none highlight (some msg) (msg.revisions + 1)
      ({ buf with messages := buf.messages.set i message }, .ok message)

/-! ## Tab-slot multiplexer (`src/core/core.py`)

A `Tab` is one slot of `Core.tabs`.  The concrete tab classes live in the
(protocol-specific) `tabs` module; the core code distinguishes only three
behaviours, reflected in the three constructors: `GapTab` placeholders (falsy,
`isinstance(tab, tabs.GapTab)`), the permanent `RosterInfoTab` at slot 0, and
every other (real) tab.  Real tabs are distinct Python objects; the `id`
payload models object identity, so `==`/`is` become value equality as long as
real tabs carry distinct ids (which theorems needing it assume explicitly). -/

inductive Tab where
  | gap
  | roster
  | normal (id : Nat)
deriving DecidableEq, Repr

/-- Python truthiness of a tab: `GapTab.__bool__` is `False`, every real tab
object is truthy. -/
def Tab.truthy : Tab → Bool
  | .gap => false
  | _ => true

/-- Check `isinstance(tab, tabs.GapTab)`. -/
def Tab.isGap : Tab → Bool
  | .gap => true
  | _ => false

/-- Python `list.insert(i, x)` (clamps an index past the end to an append). -/
def pyInsert (l : List Tab) (i : Nat) (x : Tab) : List Tab :=
  l.take i ++ [x] ++ l.drop i

/-- Python `list.index(x)`: index of the first element equal to `x` (under
object identity for tabs; see the `Tab` comment).  Returns `l.length` when
absent (Python raises `ValueError`; all call sites pass a present element). -/
def pyIndexOf (l : List Tab) (x : Tab) : Nat :=
  match l with
  | [] => 0
  | y :: ys => if y = x then 0 else pyIndexOf ys x + 1

/-- Remove the first falsy (Gap) element of a list, if any. -/
def dropFirstGap : List Tab → Option (List Tab)
  | [] => none
  | t :: ts => if t.truthy then (dropFirstGap ts).map (t :: ·) else some ts

/-- The `while not done` loop of `insert_tab_gaps` (core.py:835-844): starting
just after position `i`, pop the first falsy element found, if any. -/
def removeGapAfter (l : List Tab) (i : Nat) : List Tab :=
  l.take (i + 1) ++ ((dropFirstGap (l.drop (i + 1))).getD (l.drop (i + 1)))

/-- The trailing-Gap trim of `insert_tab_gaps` (core.py:846-849):
`i = len(tabs)-1; while isinstance(tabs[i], GapTab): tabs.pop(); i -= 1`.
When some element is not a Gap the loop stops at the last such element, which
is exactly dropping the longest Gap suffix.  (When EVERY element is a Gap the
Python loop underflows into negative indices; the verified scenarios always
hold a non-Gap roster tab at slot 0, where both readings agree.) -/
def trimTrailingGaps (l : List Tab) : List Tab :=
  (l.reverse.dropWhile Tab.isGap).reverse

/-- The trailing trim of `close_tab` (core.py:1088-1090), written with
truthiness (`while not self.tabs[nb]`) instead of `isinstance`; on `Tab` the
two predicates coincide. -/
def trimTrailingFalsy (l : List Tab) : List Tab :=
  (l.reverse.dropWhile (fun t => !t.truthy)).reverse

/-- Method `Core.insert_tab_gaps` (core.py:811-850).  Returns the new list and the
success flag.  The simultaneous assignment
`tabs[new_pos], tabs[old_pos] = tabs[old_pos], GapTab()` evaluates its right
side first, then stores left-to-right. -/
def insert_tab_gaps (l : List Tab) (old_pos new_pos : Nat) : List Tab × Bool :=
  match l.get? old_pos with
  | none => (l, false)
  | some tab =>
    let target : Option Tab := if new_pos ≥ l.length then none else l.get? new_pos
    -- `if not target`: `target` is either `None` (position past the end) or a
    -- tab whose truthiness decides; falsy exactly when it is no truthy tab.
    let targetFalsy : Bool := !(target.any Tab.truthy)
    if targetFalsy then
      let l' := if new_pos < l.length
        then (l.set new_pos tab).set old_pos Tab.gap
        else (l ++ [tab]).set old_pos Tab.gap
      (trimTrailingGaps l', true)
    else
      if new_pos = old_pos then (l, false)
      else
        let l' := if new_pos > old_pos
          then (pyInsert l new_pos tab).set old_pos Tab.gap
          else pyInsert (l.set old_pos Tab.gap) new_pos tab
        let i := pyIndexOf l' tab
        (trimTrailingGaps (removeGapAfter l' i), true)

/-- Python `list.remove(x)`: remove the first element equal to `x` (identity
for tab objects); no-op when absent (Python raises; call sites guarantee
presence). -/
def pyRemoveFirst (l : List Tab) (x : Tab) : List Tab :=
  match l with
  | [] => []
  | y :: ys => if y = x then ys else y :: pyRemoveFirst ys x

/-- Method `Core.insert_tab_nogaps` (core.py:794-809): a plain remove-then-insert
move. -/
def insert_tab_nogaps (l : List Tab) (old_pos new_pos : Nat) : List Tab × Bool :=
  match l.get? old_pos with
  | none => (l, false)
  | some tab =>
    if new_pos < old_pos then (pyInsert (l.eraseIdx old_pos) new_pos tab, true)
    else if new_pos > old_pos then (pyRemoveFirst (pyInsert l new_pos tab) tab, true)
    else (l, false)

/-- Method `Core.insert_tab` (core.py:852-867).  The positions are parsed integers;
`old_pos <= 0` and `new_pos <= 0` are the source's guards (negative arguments
are rejected exactly like 0, so `Nat` positions lose nothing).  Note that NO
upper bound is checked on `new_pos`. -/
def insert_tab (l : List Tab) (create_gaps : Bool) (old_pos new_pos : Nat) : List Tab × Bool :=
  if old_pos = 0 ∨ old_pos ≥ l.length then (l, false)
  else if new_pos = 0 then (l, false)
  else if new_pos = old_pos then (l, false)
  else match l.get? old_pos with
    | none => (l, false)
    | some t =>
      if !t.truthy then (l, false)
      else if create_gaps then insert_tab_gaps l old_pos new_pos
      else insert_tab_nogaps l old_pos new_pos

/-- The `current_tab_nb` setter (core.py:957-964): wrap past the end to 0,
wrap below 0 to the last slot.  `value` is an `Int` because the rotation code
decrements through this setter. -/
def set_current_tab_nb (len : Nat) (value : Int) : Nat :=
  if value ≥ len then 0
  else if value < 0 then len - 1
  else value.toNat

/-- The gap-skipping loop of `rotate_rooms_right`
(`while not self.tabs[self.current_tab_nb]: self.current_tab_nb += 1`), each
increment running through the wrapping setter.  The Python loop is unbounded;
it terminates whenever some slot is truthy (slot 0 in every verified state),
and `fuel > len` suffices to reach slot 0 from anywhere, so callers pass
`len + 1`. -/
def skipGapsUp (l : List Tab) : Nat → Nat → Nat
  | cur, 0 => cur
  | cur, fuel + 1 =>
    if (l.get? cur).any Tab.truthy then cur
    else skipGapsUp l (set_current_tab_nb l.length ((cur : Int) + 1)) fuel

/-- The gap-skipping loop of `close_tab`
(`while not self.tabs[self.current_tab_nb]: self.current_tab_nb -= 1`). -/
def skipGapsDown (l : List Tab) : Nat → Nat → Nat
  | cur, 0 => cur
  | cur, fuel + 1 =>
    if (l.get? cur).any Tab.truthy then cur
    else skipGapsDown l (set_current_tab_nb l.length ((cur : Int) - 1)) fuel

/-- Method `Core.rotate_rooms_right` (core.py:871-880), focus-cursor part: step the
cursor up once, then skip Gap slots upward (wrapping).  The focus-lifecycle
hooks and the redraw touch only the tabs' rendering state. -/
def rotate_rooms_right (l : List Tab) (cur : Nat) : Nat :=
  skipGapsUp l (set_current_tab_nb l.length ((cur : Int) + 1)) (l.length + 1)

/-- Method `Core.rotate_rooms_left` (core.py:882-891), focus-cursor part. -/
def rotate_rooms_left (l : List Tab) (cur : Nat) : Nat :=
  skipGapsDown l (set_current_tab_nb l.length ((cur : Int) - 1)) (l.length + 1)

/-- Method `Core.close_tab` (core.py:1073-1108).  `idx` is the closed tab's number
`tab.nb` (its slot); `list.remove(tab)` removes, under object identity, the
element at that slot, hence `eraseIdx`.  Closing a `RosterInfoTab` returns
immediately ("The tab 0 should NEVER be closed").  After the list mutation the
focus cursor is clamped (`if current_tab_nb >= len: current_tab_nb = len-1`,
through the wrapping setter) and moved downward off Gap slots. -/
def close_tab (l : List Tab) (create_gaps : Bool) (cur : Nat) (idx : Nat) : List Tab × Nat :=
  match l.get? idx with
  | none => (l, cur)
  | some Tab.roster => (l, cur)
  | some _ =>
    let l' :=
      if create_gaps then
        if idx + 1 ≥ l.length then trimTrailingFalsy (l.eraseIdx idx)
        else l.set idx Tab.gap
      else l.eraseIdx idx
    let cur' := if cur ≥ l'.length then set_current_tab_nb l'.length ((l'.length : Int) - 1) else cur
    (l', skipGapsDown l' cur' (l'.length + 1))

/-! ## Timed events and the main loop (`src/core/core.py`) -/

/-- One pending timed event.  The `TimedEvent` class itself lives in the
(absent) `timed_events` module.  Modelled from the spec: `deadline` is the
firing time and `has_timed_out(now)` holds once the deadline has expired at
`now`; the callback's return value (`ret`, its Python truthiness) decides
whether the event stays registered.  `id` is the Python object identity, used
to report which events fired. -/
structure TimedEvent where
  deadline : Nat
  ret : Bool
  id : Nat
deriving DecidableEq, Repr

/-- Modelled from the spec: `event.has_timed_out(now)` — the deadline has
expired at time `now`. -/
def TimedEvent.has_timed_out (e : TimedEvent) (now : Nat) : Bool :=
  e.deadline ≤ now

/-- Method `Core.check_timed_events` (core.py:634-642) on the pending collection (a
Python `set`, modelled as a list in its iteration order — the claims settled
below hold for every order).  Walks the pending events; each expired event
fires; a falsy callback return removes that event and `break`s out of the
loop.  Returns the remaining pending events and the ids of the events that
fired. -/
def check_timed_events (now : Nat) : List TimedEvent → List TimedEvent × List Nat
  | [] => ([], [])
  | e :: rest =>
    if e.has_timed_out now then
      if e.ret then
        let (r, f) := check_timed_events now rest
        (e :: r, e.id :: f)
      else (rest, [e.id])
    else
      let (r, f) := check_timed_events now rest
      (e :: r, f)

/-- Function `replace_key_with_bound` (core.py:1727-1731): translate a raw key through
the user's key-alias table (`config.get(key, key, 'bindings')`), falling back
to the key itself when unbound or bound to a falsy (empty) value. -/
def replace_key_with_bound (aliases : String → Option String) (key : String) : String :=
  let bind := (aliases key).getD key
  if bind = "" then key else bind

/-- The loop body of `separate_chars_from_bindings` (core.py:414-450).  `n` is
`len(char_list)`, the length of the WHOLE input batch (used by the lone-`^I`
heuristic); `current` is the plain-character run being accumulated. -/
def sepGo (n : Nat) : List String → List String → List (List String)
  | [], current => if current = [] then [] else [current]
  | c :: rest, current =>
    let c := if c = "\x1f" then "^/" else c
    if c.length = 1 then sepGo n rest (current ++ [c])
    else if c = "^I" ∧ n ≠ 1 then sepGo n rest (current ++ ["\t"])
    else (if current = [] then [] else [current]) ++ [[c]] ++ sepGo n rest []

/-- Function `separate_chars_from_bindings` (core.py:414-450): split one raw key batch
into maximal runs of plain characters and singleton special keys. -/
def separate_chars_from_bindings (char_list : List String) : List (List String) :=
  sepGo char_list.length char_list []

/-- Observable effects of processing one key batch in `Core.main_loop`
(core.py:452-484).  `inserted` records the tokens handed to the focused
input's `do_command` by the Paused branch, `signals` the `self.event.set()`
calls, `bound_calls` the keys whose `self.key_func` binding was invoked, and
`typed` the text handed to `do_command` by the un-paused branch. -/
structure LoopEffects where
  inserted : List String
  signals : Nat
  bound_calls : List String
  typed : List String
deriving DecidableEq, Repr

def LoopEffects.empty : LoopEffects := ⟨[], 0, [], []⟩

/-- Function `replace_line_breaks` (core.py:410-413). -/
def replace_line_breaks (key : String) : String :=
  if key = "^J" then "\n" else key

/-- Handling of one run `char_list` inside the batch loop of `main_loop`
(core.py:457-483).  When `paused`, exactly `char_list[0]` goes to the active
prompt's `do_command` and the wait condition is signalled, with no binding
lookup (`continue`).  When not paused, a singleton run is looked up in
`key_func` (after the `M-<digit>` window-switch special case, which touches
only the focus cursor) and otherwise typed; a longer run is typed joined.
The `M-<digit>` focus effect and the tabs' own `on_input` reactions are
rendering/tab-state concerns outside `LoopEffects`. -/
def handle_run (paused : Bool) (key_func : String → Bool) (eff : LoopEffects)
    (char_list : List String) : LoopEffects :=
  if paused then
    { eff with
      inserted := eff.inserted ++ [char_list.headD ""]
      signals := eff.signals + 1 }
  else
    match char_list with
    | [char] =>
      if key_func char then { eff with bound_calls := eff.bound_calls ++ [char] }
      else { eff with typed := eff.typed ++ [replace_line_breaks char] }
    | _ => { eff with typed := eff.typed ++ [String.join char_list] }

/-- One iteration of `main_loop` on a raw key batch: alias every key, split
the batch into runs, process each run. -/
def process_batch (paused : Bool) (aliases : String → Option String)
    (key_func : String → Bool) (keys : List String) : LoopEffects :=
  let big_char_list := keys.map (replace_key_with_bound aliases)
  (separate_chars_from_bindings big_char_list).foldl (handle_run paused key_func)
    LoopEffects.empty

/-- One close/insert operation of claim C3, in gap mode. -/
inductive TabOp where
  | ins (old_pos new_pos : Nat)
  | close (idx : Nat)

/-- Apply one operation to the tab list / focus cursor (gap mode). -/
def applyTabOp (s : List Tab × Nat) : TabOp → List Tab × Nat
  | .ins o n => ((insert_tab s.1 true o n).1, s.2)
  | .close i => close_tab s.1 true s.2 i

/-- Apply a sequence of operations (gap mode). -/
def applyTabOps (s : List Tab × Nat) (ops : List TabOp) : List Tab × Nat :=
  ops.foldl applyTabOp s

/-- Well-formed revision bookkeeping: the stored `revisions` count equals the
actual length of the backward chain. -/
def wfChain (m : Message) : Prop := m.revisions = m.chainDepth

instance (m : Message) : Decidable (wfChain m) := by
  unfold wfChain
  infer_instance

/-- The arguments of one `TextBuffer.add_message` call. -/
structure AddArgs where
  txt : String
  time : Option DateTime
  nickname : Option String
  nick_color : Option Nat
  history : Bool
  user : Option Nat
  highlight : Bool
  identifier : Option String
  str_time : Option String

/-- The message `add_message` builds from one argument tuple. -/
def makeFromArgs (now : DateTime) (a : AddArgs) : Message :=
  make_message now a.txt a.time a.nickname a.nick_color a.history a.user a.identifier
    a.str_time a.highlight none 0

/-- One `add_message` call applied to one argument tuple. -/
def TextBuffer.add_args (buf : TextBuffer) (now : DateTime) (a : AddArgs) : TextBuffer :=
  buf.add_message now a.txt a.time a.nickname a.nick_color a.history a.user a.highlight
    a.identifier a.str_time

/-- A whole sequence of `add_message` calls. -/
def addAll (now : DateTime) (buf : TextBuffer) (l : List AddArgs) : TextBuffer :=
  l.foldl (fun b a => b.add_args now a) buf

end Poezio

namespace Poezio

def nowC1 : DateTime := ⟨2015, 1, 1, 12, 0, 0⟩

def msgC1 : Message :=
  make_message nowC1 "hello" none (some "nick") none false (some 7) (some "id1") none false none 0

def bufC1 : TextBuffer := ⟨10, [msgC1]⟩

def modC1 : TextBuffer × Except CorrectionError Message :=
  bufC1.modify_message nowC1 "goodbye" (some "id1") (some "id2") false none (some 7)

def bufC1' : TextBuffer := modC1.1

def msgC1' : Message :=
  match modC1.2 with
  | .ok m => m
  | .error _ => msgC1

def nowC2 : DateTime := ⟨2015, 1, 2, 9, 30, 0⟩

def argsC2 (t : String) : AddArgs := ⟨t, none, none, none, false, none, false, none, none⟩

def bufC2 : TextBuffer := ⟨2, []⟩

def listC2 : List AddArgs := [argsC2 "a", argsC2 "b", argsC2 "c"]

def msgC6 : Message :=
  make_message nowC1 "orig" none (some "alice") none false (some 1) (some "mid") none false none 0

def bufC6 : TextBuffer := ⟨10, [msgC6]⟩

def msgC10 : Message :=
  make_message nowC1 "old" none (some "bob") none true (some 3) (some "x1")
    (some "ignored") false none 0

def bufC10 : TextBuffer := ⟨10, [msgC10]⟩

/-- The tab list does not end in a Gap (and in particular is nonempty). -/
def endsOk (l : List Tab) : Bool :=
  match l.getLast? with
  | none => false
  | some t => !t.isGap

/-- Real (non-Gap) tabs occur at most once: the value-level counterpart of
Python object identity for tab objects (each tab object is stored in
`Core.tabs` at most once; only `GapTab` placeholders may repeat). -/
def distinctTabs (l : List Tab) : Prop :=
  l.Pairwise (fun a b => a = b → a = Tab.gap)

instance (l : List Tab) : Decidable (distinctTabs l) := by
  unfold distinctTabs
  infer_instance

/-- Prefix of a list up to and including the first element satisfying `p`. -/
def takeThrough (p : TimedEvent → Bool) : List TimedEvent → List TimedEvent
  | [] => []
  | x :: xs => if p x then [x] else x :: takeThrough p xs

def tabsC4 : List Tab := [Tab.roster, Tab.normal 1, Tab.normal 2, Tab.normal 3]

def tabsC5 : List Tab := [Tab.roster, Tab.normal 1, Tab.normal 2]

def tabsC3 : List Tab := [Tab.roster, Tab.normal 1, Tab.normal 2]

def opsC3 : List TabOp := [TabOp.ins 1 5, TabOp.close 2, TabOp.ins 2 1]

def tabsC7 : List Tab := [Tab.roster, Tab.gap, Tab.normal 1]

def eventsC8 : List TimedEvent := [⟨0, false, 1⟩, ⟨0, false, 2⟩]

def eventsC8k : List TimedEvent := [⟨0, true, 1⟩, ⟨7, true, 2⟩, ⟨3, true, 3⟩]

/-! ## Lemmas about the message buffer -/

theorem findLastMatch_spec (msgs : List Message) (old_id : Option String) :
    ∀ n i m, findLastMatch msgs old_id n = some (i, m) →
      msgs.get? i = some m ∧ m.identifier = old_id := by
  intro n
  induction n with
  | zero => intro i m h; simp [findLastMatch] at h
  | succ k ih =>
    intro i m h
    rw [findLastMatch] at h
    cases hk : msgs.get? k with
    | none => rw [hk] at h; exact ih i m h
    | some mk =>
      rw [hk] at h
      have h' : (if mk.identifier = old_id then some (k, mk)
          else findLastMatch msgs old_id k) = some (i, m) := h
      by_cases hid : mk.identifier = old_id
      · rw [if_pos hid] at h'
        injection h' with h2
        rw [Prod.mk.injEq] at h2
        obtain ⟨rfl, rfl⟩ := h2
        exact ⟨hk, hid⟩
      · rw [if_neg hid] at h'; exact ih i m h'

theorem followPrev_chainDepth :
    ∀ (n : Nat) (m : Message), m.chainDepth = n →
      ∃ last, Message.followPrev n m = some last ∧ last.old_message = none := by
  intro n
  induction n with
  | zero =>
    intro m h
    cases m with
    | mk t c ti st ni u id hl me om rv =>
      cases om with
      | none => exact ⟨_, rfl, rfl⟩
      | some p => simp [Message.chainDepth] at h
  | succ k ih =>
    intro m h
    cases m with
    | mk t c ti st ni u id hl me om rv =>
      cases om with
      | none => simp [Message.chainDepth] at h
      | some p =>
        have hp : p.chainDepth = k := by
          have := h
          simp [Message.chainDepth] at this
          exact this
        obtain ⟨last, hf, ho⟩ := ih p hp
        exact ⟨last, by simpa [Message.followPrev, Message.old_message] using hf, ho⟩

theorem popFrontWhileOver_eq_drop (limit : Nat) (l : List Message) :
    popFrontWhileOver limit l = l.drop (l.length - limit) := by
  induction l with
  | nil => simp [popFrontWhileOver]
  | cons m ms ih =>
    by_cases h : ms.length + 1 > limit
    · rw [popFrontWhileOver, if_pos h, ih]
      have h2 : (m :: ms).length - limit = (ms.length - limit) + 1 := by
        simp only [List.length_cons]; omega
      rw [h2, List.drop_succ_cons]
    · rw [popFrontWhileOver, if_neg h]
      have h2 : (m :: ms).length - limit = 0 := by
        simp only [List.length_cons]; omega
      rw [h2, List.drop_zero]

theorem add_args_messages (buf : TextBuffer) (now : DateTime) (a : AddArgs) :
    (buf.add_args now a).messages =
      (buf.messages ++ [makeFromArgs now a]).drop
        ((buf.messages.length + 1) - buf.messages_nb_limit) ∧
    (buf.add_args now a).messages_nb_limit = buf.messages_nb_limit := by
  constructor
  · show popFrontWhileOver _ _ = _
    rw [popFrontWhileOver_eq_drop]
    simp only [List.length_append, List.length_singleton]
    rfl
  · rfl

theorem addAll_messages (now : DateTime) :
    ∀ (l : List AddArgs) (buf : TextBuffer),
      buf.messages.length ≤ buf.messages_nb_limit →
      (addAll now buf l).messages =
        (buf.messages ++ l.map (makeFromArgs now)).drop
          ((buf.messages.length + l.length) - buf.messages_nb_limit) ∧
      (addAll now buf l).messages_nb_limit = buf.messages_nb_limit := by
  intro l
  induction l with
  | nil =>
    intro buf h
    refine ⟨?_, rfl⟩
    simp only [addAll, List.foldl_nil, List.map_nil, List.append_nil, List.length_nil]
    have hz : buf.messages.length + 0 - buf.messages_nb_limit = 0 := by omega
    rw [hz, List.drop_zero]
  | cons a rest ih =>
    intro buf _
    obtain ⟨hmsg, hlim⟩ := add_args_messages buf now a
    have hsmall : (buf.add_args now a).messages.length ≤ (buf.add_args now a).messages_nb_limit := by
      rw [hmsg, hlim]
      simp only [List.length_drop, List.length_append, List.length_singleton]
      omega
    obtain ⟨ihm, ihl⟩ := ih (buf.add_args now a) hsmall
    have hstep : addAll now buf (a :: rest) = addAll now (buf.add_args now a) rest := rfl
    rw [hstep]
    refine ⟨?_, by rw [ihl, hlim]⟩
    rw [ihm, hmsg, hlim]
    have h1 : buf.messages.length + 1 - buf.messages_nb_limit ≤
        (buf.messages ++ [makeFromArgs now a]).length := by
      simp only [List.length_append, List.length_singleton]; omega
    rw [← List.drop_append_of_le_length h1, List.drop_drop]
    have h2 : (buf.messages ++ [makeFromArgs now a]) ++ rest.map (makeFromArgs now) =
        buf.messages ++ (a :: rest).map (makeFromArgs now) := by
      simp
    rw [h2]
    congr 1
    simp only [hmsg, hlim, List.length_drop, List.length_append, List.length_singleton,
      List.length_cons, List.length_map, List.length_nil]
    omega

theorem make_message_old_message (now : DateTime) (txt : String) (time : Option DateTime)
    (nickname : Option String) (nick_color : Option Nat) (history : Bool)
    (user : Option Nat) (identifier : Option String) (str_time : Option String)
    (highlight : Bool) (old_message : Option Message) (revisions : Nat) :
    (make_message now txt time nickname nick_color history user identifier str_time
      highlight old_message revisions).old_message = old_message := rfl

theorem make_message_revisions (now : DateTime) (txt : String) (time : Option DateTime)
    (nickname : Option String) (nick_color : Option Nat) (history : Bool)
    (user : Option Nat) (identifier : Option String) (str_time : Option String)
    (highlight : Bool) (old_message : Option Message) (revisions : Nat) :
    (make_message now txt time nickname nick_color history user identifier str_time
      highlight old_message revisions).revisions = revisions := rfl

theorem make_message_chainDepth (now : DateTime) (txt : String) (time : Option DateTime)
    (nickname : Option String) (nick_color : Option Nat) (history : Bool)
    (user : Option Nat) (identifier : Option String) (str_time : Option String)
    (highlight : Bool) (p : Message) (revisions : Nat) :
    (make_message now txt time nickname nick_color history user identifier str_time
      highlight (some p) revisions).chainDepth = p.chainDepth + 1 := rfl

/-! ## Claim theorems about the message buffer -/

/-- C1: a successful `modify_message` whose `old_id` matched a stored message
`old` with revision count `r` returns a new message whose `old_message`
(previous revision) is `old`, whose `revisions` is `r + 1`, and which replaces
`old` in place at the same slot `i`; moreover, when the buffer's revision
bookkeeping is well formed, the new message's `revisions` equals its actual
chain length, following `old_message` that many times reaches a message with
no previous revision, and the resulting buffer is well formed again — which is
exactly the state after N successful corrections of a freshly added message
(`revisions = 0`, `old_message = none`). -/
theorem correction_builds_revision_chain
    (buf : TextBuffer) (now : DateTime) (txt : String) (old_id new_id : Option String)
    (highlight : Bool) (time : Option DateTime) (user : Option Nat)
    (buf' : TextBuffer) (m : Message)
    (hok : buf.modify_message now txt old_id new_id highlight time user = (buf', Except.ok m))
    (hwf : ∀ msg ∈ buf.messages, wfChain msg) :
    ∃ i old, buf.messages.get? i = some old ∧ old.identifier = old_id ∧
      m.old_message = some old ∧
      m.revisions = old.revisions + 1 ∧
      buf'.messages = buf.messages.set i m ∧
      m.revisions = m.chainDepth ∧
      (∃ last, Message.followPrev m.revisions m = some last ∧ last.old_message = none) ∧
      (∀ msg ∈ buf'.messages, wfChain msg) := by
  cases hf : findLastMatch buf.messages old_id buf.messages.length with
  | none =>
    have hR : buf.modify_message now txt old_id new_id highlight time user =
        (buf, .error .nothingToReplace) := by
      simp [TextBuffer.modify_message, hf]
    rw [hR] at hok
    have := congrArg Prod.snd hok
    simp at this
  | some im =>
    obtain ⟨i, msg⟩ := im
    by_cases h1 : msg.user.isSome ∧ msg.user ≠ user
    · have hR : buf.modify_message now txt old_id new_id highlight time user =
          (buf, .error .wrongUser) := by
        simp [TextBuffer.modify_message, hf, h1]
      rw [hR] at hok
      have := congrArg Prod.snd hok
      simp at this
    · by_cases h2 : msg.str_time.length > 8
      · have hR : buf.modify_message now txt old_id new_id highlight time user =
            (buf, .error .delayedMessage) := by
          simp [TextBuffer.modify_message, hf, h1, h2]
        rw [hR] at hok
        have := congrArg Prod.snd hok
        simp at this
      · have hR : buf.modify_message now txt old_id new_id highlight time user =
            ({ messages_nb_limit := buf.messages_nb_limit,
               messages := buf.messages.set i (make_message now txt
                 (some (time.getD msg.time)) msg.nickname msg.nick_color false msg.user
                 new_id none highlight (some msg) (msg.revisions + 1)) },
             Except.ok (make_message now txt (some (time.getD msg.time)) msg.nickname
               msg.nick_color false msg.user new_id none highlight (some msg)
               (msg.revisions + 1))) := by
          simp [TextBuffer.modify_message, hf, h1, h2]
        rw [hR, Prod.mk.injEq] at hok
        obtain ⟨hfst, hsnd⟩ := hok
        have hm : m = make_message now txt (some (time.getD msg.time)) msg.nickname
            msg.nick_color false msg.user new_id none highlight (some msg)
            (msg.revisions + 1) := by
          injection hsnd with h
          exact h.symm
        have hb : buf'.messages = buf.messages.set i (make_message now txt
            (some (time.getD msg.time)) msg.nickname msg.nick_color false msg.user new_id
            none highlight (some msg) (msg.revisions + 1)) := by
          rw [← hfst]
        obtain ⟨hget, hid⟩ := findLastMatch_spec buf.messages old_id _ i msg hf
        have hwfmsg : wfChain msg := hwf msg (List.get?_mem hget)
        have hrev : m.revisions = msg.revisions + 1 := by
          rw [hm, make_message_revisions]
        have hdepth : m.revisions = m.chainDepth := by
          rw [hrev, hm, make_message_chainDepth]
          rw [wfChain] at hwfmsg
          rw [hwfmsg]
        refine ⟨i, msg, hget, hid, ?_, hrev, ?_, hdepth, ?_, ?_⟩
        · rw [hm, make_message_old_message]
        · rw [hb, hm]
        · rw [hdepth]
          exact followPrev_chainDepth m.chainDepth m rfl
        · intro msg' hmem'
          rw [hb] at hmem'
          rcases List.mem_or_eq_of_mem_set hmem' with hin | heq
          · exact hwf msg' hin
          · rw [heq, wfChain, make_message_revisions, make_message_chainDepth]
            rw [wfChain] at hwfmsg
            rw [hwfmsg]

/-- Witness for C1: a concrete one-message buffer, successfully corrected. -/
theorem correction_builds_revision_chain_witness :
    (bufC1.modify_message nowC1 "goodbye" (some "id1") (some "id2") false none (some 7) =
      (bufC1', Except.ok msgC1')) ∧
    (∀ msg ∈ bufC1.messages, wfChain msg) ∧
    (∃ i old, bufC1.messages.get? i = some old ∧ old.identifier = some "id1" ∧
      msgC1'.old_message = some old ∧
      msgC1'.revisions = old.revisions + 1 ∧
      bufC1'.messages = bufC1.messages.set i msgC1' ∧
      msgC1'.revisions = msgC1'.chainDepth ∧
      (∃ last, Message.followPrev msgC1'.revisions msgC1' = some last ∧
        last.old_message = none) ∧
      (∀ msg ∈ bufC1'.messages, wfChain msg)) :=
  ⟨rfl, by decide,
    correction_builds_revision_chain bufC1 nowC1 "goodbye" (some "id1") (some "id2")
      false none (some 7) bufC1' msgC1' rfl (by decide)⟩

/-- C2: the message log length never exceeds `messages_nb_limit` after any
append, and appending more than the limit to an empty log leaves exactly the
newest `limit` messages, the oldest ones evicted from the front in arrival
order. -/
theorem bounded_log_eviction
    (now : DateTime) (buf : TextBuffer) (l : List AddArgs)
    (h0 : buf.messages = []) (hlim : buf.messages_nb_limit ≤ l.length) :
    (addAll now buf l).messages =
      (l.map (makeFromArgs now)).drop (l.length - buf.messages_nb_limit) ∧
    (addAll now buf l).messages.length = buf.messages_nb_limit ∧
    (∀ (buf2 : TextBuffer) (a : AddArgs),
      (buf2.add_args now a).messages.length ≤ buf2.messages_nb_limit) := by
  obtain ⟨hm, _⟩ := addAll_messages now l buf (by rw [h0]; simp)
  refine ⟨?_, ?_, ?_⟩
  · rw [hm, h0]
    simp
  · rw [hm, h0]
    simp only [List.nil_append, List.length_drop, List.length_map, List.length_nil]
    omega
  · intro buf2 a
    obtain ⟨hm2, _⟩ := add_args_messages buf2 now a
    rw [hm2]
    simp only [List.length_drop, List.length_append, List.length_singleton]
    omega

/-- Witness for C2: three appends against limit 2. -/
theorem bounded_log_eviction_witness :
    (bufC2.messages = [] ∧ bufC2.messages_nb_limit ≤ listC2.length) ∧
    ((addAll nowC2 bufC2 listC2).messages =
      (listC2.map (makeFromArgs nowC2)).drop (listC2.length - bufC2.messages_nb_limit) ∧
    (addAll nowC2 bufC2 listC2).messages.length = bufC2.messages_nb_limit ∧
    (∀ (buf2 : TextBuffer) (a : AddArgs),
      (buf2.add_args nowC2 a).messages.length ≤ buf2.messages_nb_limit)) :=
  ⟨⟨rfl, by decide⟩, bounded_log_eviction nowC2 bufC2 listC2 rfl (by decide)⟩

/-- C6: every failure of `modify_message` leaves the buffer unchanged, and the
three `CorrectionError` outcomes occur exactly as the source conditions say:
`nothingToReplace` iff no stored message matches `old_id`; on a match,
`wrongUser` iff the found message's author identity is set and differs from
the supplied one, and `delayedMessage` iff the author check passed but the
stored display time is longer than 8 characters (a history replay). -/
theorem correction_failure_leaves_log_unchanged
    (buf : TextBuffer) (now : DateTime) (txt : String) (old_id new_id : Option String)
    (highlight : Bool) (time : Option DateTime) (user : Option Nat) :
    (∀ e, (buf.modify_message now txt old_id new_id highlight time user).2 = .error e →
      (buf.modify_message now txt old_id new_id highlight time user).1 = buf) ∧
    ((buf.modify_message now txt old_id new_id highlight time user).2 =
        .error .nothingToReplace ↔
      findLastMatch buf.messages old_id buf.messages.length = none) ∧
    (∀ i m, findLastMatch buf.messages old_id buf.messages.length = some (i, m) →
      ((buf.modify_message now txt old_id new_id highlight time user).2 =
          .error .wrongUser ↔ (m.user.isSome ∧ m.user ≠ user)) ∧
      ((buf.modify_message now txt old_id new_id highlight time user).2 =
          .error .delayedMessage ↔
        (¬(m.user.isSome ∧ m.user ≠ user) ∧ m.str_time.length > 8))) := by
  cases hf : findLastMatch buf.messages old_id buf.messages.length with
  | none =>
    have hR : buf.modify_message now txt old_id new_id highlight time user =
        (buf, .error .nothingToReplace) := by
      simp [TextBuffer.modify_message, hf]
    refine ⟨fun e _ => by rw [hR], by rw [hR]; simp, fun i m h => ?_⟩
    exact Option.noConfusion h
  | some im =>
    obtain ⟨i0, m0⟩ := im
    by_cases h1 : m0.user.isSome ∧ m0.user ≠ user
    · have hR : buf.modify_message now txt old_id new_id highlight time user =
          (buf, .error .wrongUser) := by
        simp [TextBuffer.modify_message, hf, h1]
      refine ⟨fun e _ => by rw [hR], by rw [hR]; simp, fun i m h => ?_⟩
      injection h with h
      rw [Prod.mk.injEq] at h
      obtain ⟨rfl, rfl⟩ := h
      constructor
      · exact ⟨fun _ => h1, fun _ => by rw [hR]⟩
      · constructor
        · intro habs
          rw [hR] at habs
          simp at habs
        · rintro ⟨hn, _⟩
          exact absurd h1 hn
    · by_cases h2 : m0.str_time.length > 8
      · have hR : buf.modify_message now txt old_id new_id highlight time user =
            (buf, .error .delayedMessage) := by
          simp [TextBuffer.modify_message, hf, h1, h2]
        refine ⟨fun e _ => by rw [hR], by rw [hR]; simp, fun i m h => ?_⟩
        injection h with h
        rw [Prod.mk.injEq] at h
        obtain ⟨rfl, rfl⟩ := h
        constructor
        · constructor
          · intro habs
            rw [hR] at habs
            simp at habs
          · intro hcond
            exact absurd hcond h1
        · exact ⟨fun _ => ⟨h1, h2⟩, fun _ => by rw [hR]⟩
      · have hR : (buf.modify_message now txt old_id new_id highlight time user).2 =
            .ok (make_message now txt (some (time.getD m0.time)) m0.nickname m0.nick_color
              false m0.user new_id none highlight (some m0) (m0.revisions + 1)) := by
          simp [TextBuffer.modify_message, hf, h1, h2]
        refine ⟨fun e he => ?_, by rw [hR]; simp, fun i m h => ?_⟩
        · rw [hR] at he
          simp at he
        · injection h with h
          rw [Prod.mk.injEq] at h
          obtain ⟨rfl, rfl⟩ := h
          constructor
          · constructor
            · intro habs
              rw [hR] at habs
              simp at habs
            · intro hcond
              exact absurd hcond h1
          · constructor
            · intro habs
              rw [hR] at habs
              simp at habs
            · rintro ⟨_, hcond⟩
              exact absurd hcond h2

/-- Witness for C6: a wrong-author correction attempt fails and leaves the
buffer unchanged. -/
theorem correction_failure_leaves_log_unchanged_witness :
    ((bufC6.modify_message nowC1 "evil" (some "mid") (some "mid2") false none (some 2)).2 =
      .error .wrongUser) ∧
    (bufC6.modify_message nowC1 "evil" (some "mid") (some "mid2") false none (some 2)).1 =
      bufC6 :=
  ⟨rfl,
    (correction_failure_leaves_log_unchanged bufC6 nowC1 "evil" (some "mid") (some "mid2")
      false none (some 2)).1 .wrongUser rfl⟩

/-- C10: when `make_message` is called with a supplied (non-`None`) `str_time`
argument the stored `str_time` field is the empty string — the supplied value
is discarded — and consequently `modify_message` never raises the
delayed-message error on a buffer whose messages all have display times of at
most 8 characters (as the empty string is). -/
theorem supplied_str_time_discarded
    (now : DateTime) (txt : String) (time : Option DateTime) (nickname : Option String)
    (nick_color : Option Nat) (history : Bool) (user : Option Nat)
    (identifier : Option String) (s : String) (highlight : Bool)
    (old_message : Option Message) (revisions : Nat) :
    (make_message now txt time nickname nick_color history user identifier (some s)
      highlight old_message revisions).str_time = "" ∧
    (∀ (buf : TextBuffer) (now2 : DateTime) (txt2 : String) (oid nid : Option String)
      (hl : Bool) (t2 : Option DateTime) (u2 : Option Nat),
      (∀ m ∈ buf.messages, m.str_time.length ≤ 8) →
      (buf.modify_message now2 txt2 oid nid hl t2 u2).2 ≠ .error .delayedMessage) := by
  constructor
  · rfl
  · intro buf now2 txt2 oid nid hl t2 u2 hshort
    cases hf : findLastMatch buf.messages oid buf.messages.length with
    | none => simp [TextBuffer.modify_message, hf]
    | some im =>
      obtain ⟨i0, m0⟩ := im
      have hmem : m0 ∈ buf.messages := List.get?_mem (findLastMatch_spec _ _ _ _ _ hf).1
      have hle := hshort m0 hmem
      by_cases h1 : m0.user.isSome ∧ m0.user ≠ u2
      · simp [TextBuffer.modify_message, hf, h1]
      · have h2 : ¬ m0.str_time.length > 8 := by omega
        simp [TextBuffer.modify_message, hf, h1, h2]

/-- Witness for C10: a history message created with a supplied `str_time`
stores `""` and its correction is not rejected as delayed. -/
theorem supplied_str_time_discarded_witness :
    msgC10.str_time = "" ∧
    (∀ m ∈ bufC10.messages, m.str_time.length ≤ 8) ∧
    (bufC10.modify_message nowC1 "new" (some "x1") (some "x2") false none (some 3)).2 ≠
      .error .delayedMessage :=
  ⟨(supplied_str_time_discarded nowC1 "old" none (some "bob") none true (some 3)
      (some "x1") "ignored" false none 0).1,
    by decide,
    (supplied_str_time_discarded nowC1 "old" none (some "bob") none true (some 3)
      (some "x1") "ignored" false none 0).2 bufC10 nowC1 "new" (some "x1") (some "x2")
      false none (some 3) (by decide)⟩

/-! ## Lemmas about the tab-slot list -/

theorem Tab.truthy_eq_true_iff (t : Tab) : t.truthy = true ↔ t ≠ Tab.gap := by
  cases t <;> simp [Tab.truthy]

theorem Tab.isGap_eq_false_iff (t : Tab) : t.isGap = false ↔ t ≠ Tab.gap := by
  cases t <;> simp [Tab.isGap]

theorem not_truthy_eq_isGap : (fun t : Tab => !t.truthy) = Tab.isGap := by
  funext t
  cases t <;> rfl

theorem pyInsert_get?_lt (l : List Tab) (x : Tab) {i n : Nat} (h1 : i < n)
    (h2 : n ≤ l.length) : (pyInsert l n x).get? i = l.get? i := by
  unfold pyInsert
  rw [List.get?_append (by
    simp only [List.length_append, List.length_take, List.length_singleton]; omega)]
  rw [List.get?_append (by rw [List.length_take]; omega)]
  exact List.get?_take h1

theorem pyInsert_get?_self (l : List Tab) (x : Tab) {n : Nat} (h : n ≤ l.length) :
    (pyInsert l n x).get? n = some x := by
  unfold pyInsert
  rw [List.append_assoc, List.get?_append_right (by rw [List.length_take]; omega)]
  rw [List.length_take]
  have h2 : n - min n l.length = 0 := by omega
  rw [h2]
  rfl

theorem pyInsert_length (l : List Tab) (x : Tab) {n : Nat} (h : n ≤ l.length) :
    (pyInsert l n x).length = l.length + 1 := by
  unfold pyInsert
  simp only [List.length_append, List.length_take, List.length_drop, List.length_singleton]
  omega

theorem pyIndexOf_eq (l : List Tab) (t : Tab) :
    ∀ p, l.get? p = some t → (∀ k, k < p → l.get? k ≠ some t) → pyIndexOf l t = p := by
  induction l with
  | nil => intro p hp _; simp at hp
  | cons x xs ih =>
    intro p hp hfirst
    by_cases hx : x = t
    · cases p with
      | zero => simp [pyIndexOf, hx]
      | succ q =>
        exfalso
        exact hfirst 0 (Nat.succ_pos q) (by simp [hx])
    · cases p with
      | zero =>
        exfalso
        have h0 : some x = some t := hp
        exact hx (Option.some.inj h0)
      | succ q =>
        have hq : xs.get? q = some t := hp
        have hfirst' : ∀ k, k < q → xs.get? k ≠ some t := by
          intro k hk
          exact hfirst (k + 1) (by omega)
        rw [pyIndexOf, if_neg hx, ih q hq hfirst']

theorem pyIndexOf_lt_length (l : List Tab) (t : Tab) (h : t ∈ l) :
    pyIndexOf l t < l.length := by
  induction l with
  | nil => cases h
  | cons x xs ih =>
    by_cases hx : x = t
    · simp [pyIndexOf, hx]
    · have hmem : t ∈ xs := by
        cases h with
        | head => exact absurd rfl hx
        | tail _ h => exact h
      rw [pyIndexOf, if_neg hx]
      simp only [List.length_cons]
      have := ih hmem
      omega

theorem trim_append_gaps (l : List Tab) :
    ∃ s, trimTrailingGaps l ++ s = l ∧ ∀ x ∈ s, x.isGap = true := by
  refine ⟨(l.reverse.takeWhile Tab.isGap).reverse, ?_, ?_⟩
  · show (l.reverse.dropWhile Tab.isGap).reverse ++ (l.reverse.takeWhile Tab.isGap).reverse = l
    rw [← List.reverse_append, List.takeWhile_append_dropWhile, List.reverse_reverse]
  · intro x hx
    rw [List.mem_reverse] at hx
    exact List.mem_takeWhile_imp hx

theorem trim_length_gt (l : List Tab) (p : Nat) (t : Tab) (hp : l.get? p = some t)
    (ht : t.isGap = false) : p < (trimTrailingGaps l).length := by
  obtain ⟨s, hs, hgap⟩ := trim_append_gaps l
  by_contra hc
  push_neg at hc
  have h2 : (trimTrailingGaps l ++ s).get? p = s.get? (p - (trimTrailingGaps l).length) :=
    List.get?_append_right hc
  rw [hs, hp] at h2
  have hmem : t ∈ s := List.get?_mem h2.symm
  have h3 := hgap t hmem
  rw [ht] at h3
  exact Bool.noConfusion h3

theorem trim_get?_of_le (l : List Tab) (p : Nat) (t : Tab) (hp : l.get? p = some t)
    (ht : t.isGap = false) (j : Nat) (hj : j ≤ p) :
    (trimTrailingGaps l).get? j = l.get? j := by
  obtain ⟨s, hs, _⟩ := trim_append_gaps l
  have hlen := trim_length_gt l p t hp ht
  have h2 : (trimTrailingGaps l ++ s).get? j = (trimTrailingGaps l).get? j :=
    List.get?_append (by omega)
  rw [hs] at h2
  exact h2.symm

theorem head?_dropWhile_false (p : Tab → Bool) :
    ∀ (l : List Tab) (x : Tab), (l.dropWhile p).head? = some x → p x = false := by
  intro l
  induction l with
  | nil => intro x hx; simp [List.dropWhile] at hx
  | cons a as ih =>
    intro x hx
    rw [List.dropWhile] at hx
    cases ha : p a with
    | true =>
      simp only [ha] at hx
      exact ih x hx
    | false =>
      simp only [ha] at hx
      simp only [List.head?] at hx
      exact Option.some.inj hx ▸ ha

theorem endsOk_trim (l : List Tab) (p : Nat) (t : Tab) (hp : l.get? p = some t)
    (ht : t.isGap = false) : endsOk (trimTrailingGaps l) = true := by
  unfold endsOk trimTrailingGaps
  rw [List.getLast?_reverse]
  cases hh : (l.reverse.dropWhile Tab.isGap).head? with
  | none =>
    exfalso
    have hlen := trim_length_gt l p t hp ht
    unfold trimTrailingGaps at hlen
    rw [List.head?_eq_none_iff] at hh
    rw [hh] at hlen
    simp at hlen
  | some x =>
    have hx := head?_dropWhile_false Tab.isGap l.reverse x hh
    simp [hx]

theorem trimFalsy_eq_trimGaps (l : List Tab) : trimTrailingFalsy l = trimTrailingGaps l := by
  unfold trimTrailingFalsy trimTrailingGaps
  rw [not_truthy_eq_isGap]

theorem eraseIdx_get?_lt {α : Type} :
    ∀ (l : List α) (i j : Nat), j < i → (l.eraseIdx i).get? j = l.get? j := by
  intro l
  induction l with
  | nil => intro i j _; simp [List.eraseIdx]
  | cons x xs ih =>
    intro i j hj
    cases i with
    | zero => omega
    | succ k =>
      cases j with
      | zero => rfl
      | succ q => exact ih k q (by omega)

theorem removeGapAfter_get?_le (l : List Tab) (i j : Nat) (hj : j ≤ i) (hi : i < l.length) :
    (removeGapAfter l i).get? j = l.get? j := by
  unfold removeGapAfter
  rw [List.get?_append (by rw [List.length_take]; omega)]
  exact List.get?_take (by omega)

theorem set_current_tab_nb_lt (len : Nat) (v : Int) (h : 1 ≤ len) :
    set_current_tab_nb len v < len := by
  unfold set_current_tab_nb
  split_ifs with h1 h2
  · omega
  · omega
  · push_neg at h1 h2
    omega

theorem trim_inv_of_head (X : List Tab) (h : X.get? 0 = some Tab.roster) :
    (trimTrailingGaps X).get? 0 = some Tab.roster ∧ endsOk (trimTrailingGaps X) = true :=
  ⟨(trim_get?_of_le X 0 Tab.roster h rfl 0 (le_refl 0)).trans h,
   endsOk_trim X 0 Tab.roster h rfl⟩

/-- The four success branches of `insert_tab_gaps` when the source slot holds
a tab and the requested move is not a self-move. -/
theorem insert_tab_gaps_result (l : List Tab) (old new : Nat) (tab : Tab)
    (htab : l.get? old = some tab) (hne : new ≠ old) :
    (l.length ≤ new ∧
      insert_tab_gaps l old new =
        (trimTrailingGaps ((l ++ [tab]).set old Tab.gap), true)) ∨
    (new < l.length ∧ (∃ tnew, l.get? new = some tnew ∧ tnew.truthy = false) ∧
      insert_tab_gaps l old new =
        (trimTrailingGaps ((l.set new tab).set old Tab.gap), true)) ∨
    (new < l.length ∧ (∃ tnew, l.get? new = some tnew ∧ tnew.truthy = true) ∧ old < new ∧
      insert_tab_gaps l old new =
        (trimTrailingGaps (removeGapAfter ((pyInsert l new tab).set old Tab.gap)
          (pyIndexOf ((pyInsert l new tab).set old Tab.gap) tab)), true)) ∨
    (new < l.length ∧ (∃ tnew, l.get? new = some tnew ∧ tnew.truthy = true) ∧ new < old ∧
      insert_tab_gaps l old new =
        (trimTrailingGaps (removeGapAfter (pyInsert (l.set old Tab.gap) new tab)
          (pyIndexOf (pyInsert (l.set old Tab.gap) new tab) tab)), true)) := by
  have htabE : l[old]? = some tab := by
    rw [← List.get?_eq_getElem?]
    exact htab
  by_cases hbig : l.length ≤ new
  · left
    refine ⟨hbig, ?_⟩
    simp [insert_tab_gaps, htabE, show ¬ new < l.length from by omega,
      show new ≥ l.length from hbig]
  · push_neg at hbig
    obtain ⟨tnew, htnew⟩ : ∃ t, l.get? new = some t := by
      cases h : l.get? new with
      | none =>
        rw [List.get?_eq_none] at h
        omega
      | some t => exact ⟨t, rfl⟩
    have htnewE : l[new]? = some tnew := by
      rw [← List.get?_eq_getElem?]
      exact htnew
    cases hgap : tnew.truthy with
    | false =>
      right; left
      refine ⟨hbig, ⟨tnew, htnew, hgap⟩, ?_⟩
      simp [insert_tab_gaps, htabE, htnewE, hgap,
        show ¬ new ≥ l.length from by omega, hbig]
    | true =>
      rcases Nat.lt_or_ge old new with hlt | hge
      · right; right; left
        refine ⟨hbig, ⟨tnew, htnew, hgap⟩, hlt, ?_⟩
        simp [insert_tab_gaps, htabE, htnewE, hgap, hne,
          show ¬ new ≥ l.length from by omega, hlt]
      · have hlt2 : new < old := by omega
        right; right; right
        refine ⟨hbig, ⟨tnew, htnew, hgap⟩, hlt2, ?_⟩
        simp [insert_tab_gaps, htabE, htnewE, hgap, hne,
          show ¬ new ≥ l.length from by omega, show ¬ new > old from by omega]

theorem insert_tab_gaps_ret_true (l : List Tab) (old new : Nat) (tab : Tab)
    (htab : l.get? old = some tab) (hne : new ≠ old) :
    (insert_tab_gaps l old new).2 = true := by
  rcases insert_tab_gaps_result l old new tab htab hne with
    ⟨_, hR⟩ | ⟨_, _, hR⟩ | ⟨_, _, _, hR⟩ | ⟨_, _, _, hR⟩ <;> rw [hR]

theorem insert_tab_nogaps_ret_true (l : List Tab) (old new : Nat) (tab : Tab)
    (htab : l.get? old = some tab) (hne : new ≠ old) :
    (insert_tab_nogaps l old new).2 = true := by
  unfold insert_tab_nogaps
  rw [htab]
  rcases Nat.lt_trichotomy new old with h | h | h
  · simp [h]
  · exact absurd h hne
  · simp [show ¬ new < old from by omega, h]

/-! ## Claim theorems about the tab-slot list -/

/-- Failure characterization of `insert_tab`: exactly the source's four
guards reject, and every rejecting path returns the list unchanged. -/
theorem insert_tab_fail_iff (l : List Tab) (g : Bool) (old new : Nat) :
    ((insert_tab l g old new).2 = false ↔
      (old = 0 ∨ l.length ≤ old ∨ new = 0 ∨ new = old ∨ l.get? old = some Tab.gap)) ∧
    ((insert_tab l g old new).2 = false → (insert_tab l g old new).1 = l) := by
  by_cases h1 : old = 0 ∨ old ≥ l.length
  · have hR : insert_tab l g old new = (l, false) := by
      unfold insert_tab
      rw [if_pos h1]
    rw [hR]
    refine ⟨⟨fun _ => ?_, fun _ => rfl⟩, fun _ => rfl⟩
    rcases h1 with h | h
    · exact Or.inl h
    · exact Or.inr (Or.inl h)
  · have h1' : ¬(old = 0 ∨ old ≥ l.length) := h1
    push_neg at h1
    obtain ⟨h10, h1len⟩ := h1
    obtain ⟨t, ht⟩ : ∃ t, l.get? old = some t := by
      cases h : l.get? old with
      | none =>
        rw [List.get?_eq_none] at h
        omega
      | some t => exact ⟨t, rfl⟩
    by_cases h2 : new = 0
    · have hR : insert_tab l g old new = (l, false) := by
        unfold insert_tab
        rw [if_neg h1', if_pos h2]
      rw [hR]
      exact ⟨⟨fun _ => Or.inr (Or.inr (Or.inl h2)), fun _ => rfl⟩, fun _ => rfl⟩
    · by_cases h3 : new = old
      · have hR : insert_tab l g old new = (l, false) := by
          unfold insert_tab
          rw [if_neg h1', if_neg h2, if_pos h3]
        rw [hR]
        exact ⟨⟨fun _ => Or.inr (Or.inr (Or.inr (Or.inl h3))), fun _ => rfl⟩, fun _ => rfl⟩
      · by_cases h4 : t = Tab.gap
        · have hR : insert_tab l g old new = (l, false) := by
            unfold insert_tab
            rw [if_neg h1', if_neg h2, if_neg h3]
            simp only [ht, h4, Tab.truthy, Bool.not_false, if_true]
          rw [hR]
          refine ⟨⟨fun _ => Or.inr (Or.inr (Or.inr (Or.inr ?_))), fun _ => rfl⟩, fun _ => rfl⟩
          rw [ht, h4]
        · have htr : t.truthy = true := (Tab.truthy_eq_true_iff t).mpr h4
          have hR : insert_tab l g old new =
              (if g then insert_tab_gaps l old new else insert_tab_nogaps l old new) := by
            unfold insert_tab
            rw [if_neg h1', if_neg h2, if_neg h3]
            simp only [ht, htr, Bool.not_true, Bool.false_eq_true, if_false]
          have hsucc : (insert_tab l g old new).2 = true := by
            rw [hR]
            cases g with
            | false =>
              simpa using insert_tab_nogaps_ret_true l old new t ht h3
            | true =>
              simpa using insert_tab_gaps_ret_true l old new t ht h3
          constructor
          · constructor
            · intro habs
              rw [hsucc] at habs
              exact Bool.noConfusion habs
            · rintro (h | h | h | h | h)
              · exact absurd h h10
              · exact absurd h (by omega)
              · exact absurd h h2
              · exact absurd h h3
              · rw [ht] at h
                exact absurd (Option.some.inj h) h4
          · intro habs
            rw [hsucc] at habs
            exact Bool.noConfusion habs

/-- C5 (amended): `insert_tab` fails, leaving the tab list unchanged, exactly
when `old_pos = 0`, `old_pos ≥ len`, `new_pos = 0`, `new_pos = old_pos`, or
the source slot holds a Gap; there is NO upper-bound check on `new_pos` (a
destination at or past the end is accepted and moves the tab to the end). -/
theorem insert_tab_noop_failure_spec (l : List Tab) (g : Bool) (old new : Nat) :
    ((insert_tab l g old new).2 = false ↔
      (old = 0 ∨ l.length ≤ old ∨ new = 0 ∨ new = old ∨ l.get? old = some Tab.gap)) ∧
    ((insert_tab l g old new).2 = false → (insert_tab l g old new).1 = l) :=
  insert_tab_fail_iff l g old new

/-- C5 counterexample: on `[Roster, A, B]`, moving tab 1 to destination 5
(well past the end, so outside `[1, len)`) is NOT rejected: it succeeds and
mutates the list, in gap mode and in no-gap mode alike. -/
theorem insert_tab_out_of_range_counterexample :
    (insert_tab tabsC5 true 1 5).2 = true ∧
    (insert_tab tabsC5 true 1 5).1 ≠ tabsC5 ∧
    (insert_tab tabsC5 false 1 5).2 = true ∧
    (insert_tab tabsC5 false 1 5).1 ≠ tabsC5 := by decide

/-- Witness for the amended C5: a self-move (`old = new = 1`) fails and leaves
the list unchanged. -/
theorem insert_tab_noop_failure_spec_witness :
    (insert_tab tabsC5 true 1 1).2 = false ∧ (insert_tab tabsC5 true 1 1).1 = tabsC5 := by
  have h := insert_tab_noop_failure_spec tabsC5 true 1 1
  have hf : (insert_tab tabsC5 true 1 1).2 = false :=
    h.1.mpr (Or.inr (Or.inr (Or.inr (Or.inl rfl))))
  exact ⟨hf, h.2 hf⟩

theorem insert_tab_gaps_inv (l : List Tab) (old new : Nat) (tab : Tab)
    (h0 : l.get? 0 = some Tab.roster) (htab : l.get? old = some tab)
    (hne : new ≠ old) (hold0 : 1 ≤ old) (hnew0 : 1 ≤ new) :
    (insert_tab_gaps l old new).1.get? 0 = some Tab.roster ∧
    endsOk (insert_tab_gaps l old new).1 = true := by
  have hlen : 0 < l.length := by
    obtain ⟨h, _⟩ := List.get?_eq_some.mp h0
    omega
  have holdlen : old < l.length := by
    obtain ⟨h, _⟩ := List.get?_eq_some.mp htab
    omega
  rcases insert_tab_gaps_result l old new tab htab hne with
    ⟨hbig, hR⟩ | ⟨hsm, ⟨tnew, htnew, hgap⟩, hR⟩ | ⟨hsm, ⟨tnew, htnew, hgap⟩, hlt, hR⟩ |
    ⟨hsm, ⟨tnew, htnew, hgap⟩, hlt, hR⟩
  · have hX0 : ((l ++ [tab]).set old Tab.gap).get? 0 = some Tab.roster := by
      rw [List.get?_set_ne _ _ (by omega : old ≠ 0), List.get?_append hlen]
      exact h0
    rw [hR]
    exact trim_inv_of_head _ hX0
  · have hX0 : ((l.set new tab).set old Tab.gap).get? 0 = some Tab.roster := by
      rw [List.get?_set_ne _ _ (by omega : old ≠ 0),
        List.get?_set_ne _ _ (by omega : new ≠ 0)]
      exact h0
    rw [hR]
    exact trim_inv_of_head _ hX0
  · have hnewlen : new ≤ l.length := by omega
    have hl1new : ((pyInsert l new tab).set old Tab.gap).get? new = some tab := by
      rw [List.get?_set_ne _ _ (by omega : old ≠ new)]
      exact pyInsert_get?_self l tab hnewlen
    have hidx := pyIndexOf_lt_length _ tab (List.get?_mem hl1new)
    have hX0 : (removeGapAfter ((pyInsert l new tab).set old Tab.gap)
        (pyIndexOf ((pyInsert l new tab).set old Tab.gap) tab)).get? 0 =
        some Tab.roster := by
      rw [removeGapAfter_get?_le _ _ 0 (Nat.zero_le _) hidx,
        List.get?_set_ne _ _ (by omega : old ≠ 0),
        pyInsert_get?_lt l tab (by omega : 0 < new) hnewlen]
      exact h0
    rw [hR]
    exact trim_inv_of_head _ hX0
  · have hsetlen : new ≤ (l.set old Tab.gap).length := by
      rw [List.length_set]
      omega
    have hl1new : (pyInsert (l.set old Tab.gap) new tab).get? new = some tab :=
      pyInsert_get?_self _ tab hsetlen
    have hidx := pyIndexOf_lt_length _ tab (List.get?_mem hl1new)
    have hX0 : (removeGapAfter (pyInsert (l.set old Tab.gap) new tab)
        (pyIndexOf (pyInsert (l.set old Tab.gap) new tab) tab)).get? 0 =
        some Tab.roster := by
      rw [removeGapAfter_get?_le _ _ 0 (Nat.zero_le _) hidx,
        pyInsert_get?_lt _ tab (by omega : 0 < new) hsetlen,
        List.get?_set_ne _ _ (by omega : old ≠ 0)]
      exact h0
    rw [hR]
    exact trim_inv_of_head _ hX0

theorem insert_tab_eq_gaps (l : List Tab) (old new : Nat) (t : Tab)
    (h1' : ¬(old = 0 ∨ old ≥ l.length)) (h2 : new ≠ 0) (h3 : new ≠ old)
    (ht : l.get? old = some t) (htr : t.truthy = true) :
    insert_tab l true old new = insert_tab_gaps l old new := by
  unfold insert_tab
  rw [if_neg h1', if_neg h2, if_neg h3]
  simp only [ht, htr, Bool.not_true, Bool.false_eq_true, if_false, if_true]

theorem close_tab_inv (l : List Tab) (cur idx : Nat)
    (h0 : l.get? 0 = some Tab.roster) (he : endsOk l = true) :
    (close_tab l true cur idx).1.get? 0 = some Tab.roster ∧
    endsOk (close_tab l true cur idx).1 = true := by
  have hmut : ∀ t, l.get? idx = some t → t ≠ Tab.roster →
      ((if idx + 1 ≥ l.length then trimTrailingFalsy (l.eraseIdx idx)
        else l.set idx Tab.gap).get? 0 = some Tab.roster ∧
       endsOk (if idx + 1 ≥ l.length then trimTrailingFalsy (l.eraseIdx idx)
        else l.set idx Tab.gap) = true) := by
    intro t hidx hnr
    have hidx0 : idx ≠ 0 := by
      intro h
      rw [h, h0] at hidx
      exact hnr (Option.some.inj hidx).symm
    have hidxlen : idx < l.length := by
      obtain ⟨h, _⟩ := List.get?_eq_some.mp hidx
      omega
    by_cases hend : idx + 1 ≥ l.length
    · rw [if_pos hend, trimFalsy_eq_trimGaps]
      have hX0 : (l.eraseIdx idx).get? 0 = some Tab.roster := by
        rw [eraseIdx_get?_lt l idx 0 (by omega)]
        exact h0
      exact trim_inv_of_head _ hX0
    · rw [if_neg hend]
      constructor
      · rw [List.get?_set_ne _ _ (by omega : idx ≠ 0)]
        exact h0
      · have hlast : (l.set idx Tab.gap).getLast? = l.getLast? := by
          rw [List.getLast?_eq_get?, List.getLast?_eq_get?, List.length_set,
            List.get?_set_ne _ _ (by omega : idx ≠ l.length - 1)]
        unfold endsOk
        rw [hlast]
        unfold endsOk at he
        exact he
  unfold close_tab
  cases hidx : l.get? idx with
  | none => exact ⟨h0, he⟩
  | some t =>
    cases t with
    | gap => exact hmut Tab.gap hidx (by intro h; exact Tab.noConfusion h)
    | roster => exact ⟨h0, he⟩
    | normal id => exact hmut (Tab.normal id) hidx (by intro h; exact Tab.noConfusion h)

theorem applyTabOp_inv (s : List Tab × Nat) (op : TabOp)
    (h0 : s.1.get? 0 = some Tab.roster) (he : endsOk s.1 = true) :
    (applyTabOp s op).1.get? 0 = some Tab.roster ∧ endsOk (applyTabOp s op).1 = true := by
  obtain ⟨l, cur⟩ := s
  cases op with
  | ins o n =>
    have hsub : (applyTabOp (l, cur) (TabOp.ins o n)).1 = (insert_tab l true o n).1 := rfl
    rw [hsub]
    by_cases hfail : (insert_tab l true o n).2 = false
    · rw [(insert_tab_fail_iff l true o n).2 hfail]
      exact ⟨h0, he⟩
    · have hnc : ¬(o = 0 ∨ l.length ≤ o ∨ n = 0 ∨ n = o ∨ l.get? o = some Tab.gap) := by
        intro hc
        exact hfail ((insert_tab_fail_iff l true o n).1.mpr hc)
      push_neg at hnc
      obtain ⟨ho0, holen, hn0, hno, hogap⟩ := hnc
      obtain ⟨t, ht⟩ : ∃ t, l.get? o = some t := by
        cases h : l.get? o with
        | none =>
          rw [List.get?_eq_none] at h
          omega
        | some t => exact ⟨t, rfl⟩
      have htr : t.truthy = true := by
        rw [Tab.truthy_eq_true_iff]
        intro hgap
        rw [hgap] at ht
        exact hogap ht
      rw [insert_tab_eq_gaps l o n t (by omega) hn0 hno ht htr]
      exact insert_tab_gaps_inv l o n t h0 ht hno (by omega) (by omega)
  | close i =>
    exact close_tab_inv l cur i h0 he

theorem applyTabOps_inv (ops : List TabOp) :
    ∀ s : List Tab × Nat, s.1.get? 0 = some Tab.roster → endsOk s.1 = true →
      (applyTabOps s ops).1.get? 0 = some Tab.roster ∧
      endsOk (applyTabOps s ops).1 = true := by
  induction ops with
  | nil => intro s h0 he; exact ⟨h0, he⟩
  | cons op rest ih =>
    intro s h0 he
    have hstep := applyTabOp_inv s op h0 he
    exact ih (applyTabOp s op) hstep.1 hstep.2

/-- C3: for every sequence of gap-mode `insert_tab`/`close_tab` operations on
a list whose slot 0 is the permanent roster tab and which does not end in a
Gap, the resulting list still has the roster (hence not a Gap) at slot 0 and
never ends in a Gap (trailing Gaps are trimmed by every mutation). -/
theorem gap_mode_trailing_invariant (l : List Tab) (cur : Nat) (ops : List TabOp)
    (h0 : l.get? 0 = some Tab.roster) (he : endsOk l = true) :
    (applyTabOps (l, cur) ops).1.get? 0 = some Tab.roster ∧
    (applyTabOps (l, cur) ops).1.get? 0 ≠ some Tab.gap ∧
    endsOk (applyTabOps (l, cur) ops).1 = true ∧
    (applyTabOps (l, cur) ops).1.getLast? ≠ some Tab.gap := by
  obtain ⟨ha, hb⟩ := applyTabOps_inv ops (l, cur) h0 he
  refine ⟨ha, by rw [ha]; simp, hb, ?_⟩
  intro hlast
  unfold endsOk at hb
  rw [hlast] at hb
  simp [Tab.isGap] at hb

/-- Witness for C3: a concrete roster-headed list under a move past the end, a
close, and a move left. -/
theorem gap_mode_trailing_invariant_witness :
    (tabsC3.get? 0 = some Tab.roster ∧ endsOk tabsC3 = true) ∧
    ((applyTabOps (tabsC3, 0) opsC3).1.get? 0 = some Tab.roster ∧
     (applyTabOps (tabsC3, 0) opsC3).1.get? 0 ≠ some Tab.gap ∧
     endsOk (applyTabOps (tabsC3, 0) opsC3).1 = true ∧
     (applyTabOps (tabsC3, 0) opsC3).1.getLast? ≠ some Tab.gap) :=
  ⟨⟨rfl, rfl⟩, gap_mode_trailing_invariant tabsC3 0 opsC3 rfl rfl⟩

theorem distinctTabs_get? (l : List Tab) (hd : distinctTabs l) {i j : Nat} {t : Tab}
    (hne : i ≠ j) (hi : l.get? i = some t) (hj : l.get? j = some t) : t = Tab.gap := by
  have hil : i < l.length := (List.get?_eq_some.mp hi).1
  have hjl : j < l.length := (List.get?_eq_some.mp hj).1
  have h1 : l.get ⟨i, hil⟩ = t := Option.some.inj ((List.get?_eq_get hil).symm.trans hi)
  have h2 : l.get ⟨j, hjl⟩ = t := Option.some.inj ((List.get?_eq_get hjl).symm.trans hj)
  rcases Nat.lt_or_ge i j with h | h
  · have hp := List.pairwise_iff_get.mp hd ⟨i, hil⟩ ⟨j, hjl⟩ h
    rw [h1, h2] at hp
    exact hp rfl
  · have hji : j < i := by omega
    have hp := List.pairwise_iff_get.mp hd ⟨j, hjl⟩ ⟨i, hil⟩ hji
    rw [h1, h2] at hp
    exact hp rfl

theorem insert_tab_success_facts (l : List Tab) (g : Bool) (old new : Nat)
    (hsucc : ¬ (insert_tab l g old new).2 = false) :
    ∃ t, old ≠ 0 ∧ old < l.length ∧ new ≠ 0 ∧ new ≠ old ∧
      l.get? old = some t ∧ t.truthy = true := by
  have hnc : ¬(old = 0 ∨ l.length ≤ old ∨ new = 0 ∨ new = old ∨
      l.get? old = some Tab.gap) := by
    intro hc
    exact hsucc ((insert_tab_fail_iff l g old new).1.mpr hc)
  push_neg at hnc
  obtain ⟨ho0, holen, hn0, hno, hogap⟩ := hnc
  obtain ⟨t, ht⟩ : ∃ t, l.get? old = some t := by
    cases h : l.get? old with
    | none =>
      rw [List.get?_eq_none] at h
      omega
    | some t => exact ⟨t, rfl⟩
  refine ⟨t, ho0, by omega, hn0, hno, ht, ?_⟩
  rw [Tab.truthy_eq_true_iff]
  intro hgap
  rw [hgap] at ht
  exact hogap ht

theorem insert_tab_gaps_frame (l : List Tab) (old new : Nat) (tab : Tab)
    (hd : distinctTabs l) (htab : l.get? old = some tab) (htr : tab.truthy = true)
    (hne : new ≠ old) (i : Nat) (hi : i < min old new) :
    (insert_tab_gaps l old new).1.get? i = l.get? i := by
  have holdlen : old < l.length := (List.get?_eq_some.mp htab).1
  have htgap : tab ≠ Tab.gap := (Tab.truthy_eq_true_iff tab).mp htr
  have htgap' : tab.isGap = false := (Tab.isGap_eq_false_iff tab).mpr htgap
  have hio : i < old := by omega
  have hin : i < new := by omega
  rcases insert_tab_gaps_result l old new tab htab hne with
    ⟨hbig, hR⟩ | ⟨hsm, ⟨tnew, htnew, hgap⟩, hR⟩ | ⟨hsm, ⟨tnew, htnew, hgap⟩, hlt, hR⟩ |
    ⟨hsm, ⟨tnew, htnew, hgap⟩, hlt, hR⟩
  · -- append branch: the tab lands at slot `l.length`
    have hXtab : ((l ++ [tab]).set old Tab.gap).get? l.length = some tab := by
      rw [List.get?_set_ne _ _ (by omega : old ≠ l.length)]
      exact List.get?_concat_length l tab
    have hXi : ((l ++ [tab]).set old Tab.gap).get? i = l.get? i := by
      rw [List.get?_set_ne _ _ (by omega : old ≠ i), List.get?_append (by omega)]
    rw [hR]
    rw [trim_get?_of_le _ l.length tab hXtab htgap' i (by omega)]
    exact hXi
  · -- swap-with-Gap branch: the tab lands at slot `new`
    have hXtab : ((l.set new tab).set old Tab.gap).get? new = some tab := by
      rw [List.get?_set_ne _ _ (by omega : old ≠ new)]
      exact List.get?_set_eq_of_lt tab hsm
    have hXi : ((l.set new tab).set old Tab.gap).get? i = l.get? i := by
      rw [List.get?_set_ne _ _ (by omega : old ≠ i),
        List.get?_set_ne _ _ (by omega : new ≠ i)]
    rw [hR]
    rw [trim_get?_of_le _ new tab hXtab htgap' i (by omega)]
    exact hXi
  · -- displace-right branch (old < new): the tab lands at slot `new`
    have hnewlen : new ≤ l.length := by omega
    have hpl : (pyInsert l new tab).length = l.length + 1 := pyInsert_length l tab hnewlen
    have hl1len : ((pyInsert l new tab).set old Tab.gap).length = l.length + 1 := by
      rw [List.length_set, hpl]
    have hl1new : ((pyInsert l new tab).set old Tab.gap).get? new = some tab := by
      rw [List.get?_set_ne _ _ (by omega : old ≠ new)]
      exact pyInsert_get?_self l tab hnewlen
    have hfirst : ∀ k, k < new → ((pyInsert l new tab).set old Tab.gap).get? k ≠ some tab := by
      intro k hk hcontra
      by_cases hko : k = old
      · rw [hko, List.get?_set_eq_of_lt Tab.gap (by omega)] at hcontra
        exact htgap (Option.some.inj hcontra).symm
      · rw [List.get?_set_ne _ _ (by omega : old ≠ k),
          pyInsert_get?_lt l tab hk hnewlen] at hcontra
        exact htgap (distinctTabs_get? l hd (by omega : k ≠ old) hcontra htab)
    have hidx : pyIndexOf ((pyInsert l new tab).set old Tab.gap) tab = new :=
      pyIndexOf_eq _ tab new hl1new hfirst
    have hXtab : (removeGapAfter ((pyInsert l new tab).set old Tab.gap) new).get? new =
        some tab := by
      rw [removeGapAfter_get?_le _ new new (le_refl new) (by omega)]
      exact hl1new
    have hXi : (removeGapAfter ((pyInsert l new tab).set old Tab.gap) new).get? i =
        l.get? i := by
      rw [removeGapAfter_get?_le _ new i (by omega) (by omega),
        List.get?_set_ne _ _ (by omega : old ≠ i), pyInsert_get?_lt l tab hin hnewlen]
    rw [hR, hidx]
    rw [trim_get?_of_le _ new tab hXtab htgap' i (by omega)]
    exact hXi
  · -- displace-left branch (new < old): the tab lands at slot `new`
    have hsetlen : new ≤ (l.set old Tab.gap).length := by
      rw [List.length_set]
      omega
    have hl1len : (pyInsert (l.set old Tab.gap) new tab).length = l.length + 1 := by
      rw [pyInsert_length _ tab hsetlen, List.length_set]
    have hl1new : (pyInsert (l.set old Tab.gap) new tab).get? new = some tab :=
      pyInsert_get?_self _ tab hsetlen
    have hfirst : ∀ k, k < new → (pyInsert (l.set old Tab.gap) new tab).get? k ≠ some tab := by
      intro k hk hcontra
      rw [pyInsert_get?_lt _ tab hk hsetlen,
        List.get?_set_ne _ _ (by omega : old ≠ k)] at hcontra
      exact htgap (distinctTabs_get? l hd (by omega : k ≠ old) hcontra htab)
    have hidx : pyIndexOf (pyInsert (l.set old Tab.gap) new tab) tab = new :=
      pyIndexOf_eq _ tab new hl1new hfirst
    have hXtab : (removeGapAfter (pyInsert (l.set old Tab.gap) new tab) new).get? new =
        some tab := by
      rw [removeGapAfter_get?_le _ new new (le_refl new) (by omega)]
      exact hl1new
    have hXi : (removeGapAfter (pyInsert (l.set old Tab.gap) new tab) new).get? i =
        l.get? i := by
      rw [removeGapAfter_get?_le _ new i (by omega) (by omega),
        pyInsert_get?_lt _ tab hin hsetlen, List.get?_set_ne _ _ (by omega : old ≠ i)]
    rw [hR, hidx]
    rw [trim_get?_of_le _ new tab hXtab htgap' i (by omega)]
    exact hXi

/-- C4 counterexample: on `[0:Roster, 1:A, 2:B, 3:C]` in gap mode,
`insert_tab(1, 3)` produces `[Roster, Gap, B, A, C]` — tab C does NOT keep
number 3 (it is shifted to 4, no Gap lay to the right of the destination to
collapse), contradicting both the claimed final shape and "never changes the
number of any tab other than the moved one". -/
theorem gap_move_counterexample :
    (insert_tab tabsC4 true 1 3).1 =
      [Tab.roster, Tab.gap, Tab.normal 2, Tab.normal 1, Tab.normal 3] ∧
    (insert_tab tabsC4 true 1 3).1.get? 3 ≠ some (Tab.normal 3) ∧
    (insert_tab tabsC4 true 1 3).1.get? 4 = some (Tab.normal 3) := by decide

/-- C4 (amended): in gap mode a move never changes the number of any tab at a
slot below `min(old, new)` (so B keeps number 2 and the Gap sits at index 1 in
the spec's example), but tabs at or past the destination may shift up by one
when no Gap lies to the right of the moved tab to collapse: `insert_at(1,3)`
on `[0:Roster, 1:A, 2:B, 3:C]` yields `[0:Roster, 1:Gap, 2:B, 3:A, 4:C]`,
with C at number 4. -/
theorem gap_move_shifts_amended :
    (∀ (l : List Tab), distinctTabs l → ∀ old new i : Nat, i < min old new →
      (insert_tab l true old new).1.get? i = l.get? i) ∧
    (insert_tab tabsC4 true 1 3).1 =
      [Tab.roster, Tab.gap, Tab.normal 2, Tab.normal 1, Tab.normal 3] := by
  constructor
  · intro l hd old new i hi
    by_cases hfail : (insert_tab l true old new).2 = false
    · rw [(insert_tab_fail_iff l true old new).2 hfail]
    · obtain ⟨t, ho0, holen, hn0, hno, ht, htr⟩ :=
        insert_tab_success_facts l true old new hfail
      rw [insert_tab_eq_gaps l old new t (by omega) hn0 hno ht htr]
      exact insert_tab_gaps_frame l old new t hd ht htr hno i hi
  · decide

/-- Witness for the amended C4: moving B (slot 2) to slot 3 leaves slot 1
untouched. -/
theorem gap_move_shifts_amended_witness :
    distinctTabs tabsC4 ∧ 1 < min 2 3 ∧
    (insert_tab tabsC4 true 2 3).1.get? 1 = tabsC4.get? 1 :=
  ⟨by decide, by decide, gap_move_shifts_amended.1 tabsC4 (by decide) 2 3 1 (by decide)⟩

theorem set_current_tab_nb_inc (len cur : Nat) :
    set_current_tab_nb len ((cur : Int) + 1) = if cur + 1 ≥ len then 0 else cur + 1 := by
  unfold set_current_tab_nb
  split_ifs <;> omega

theorem set_current_tab_nb_dec (len cur : Nat) (h : cur < len) :
    set_current_tab_nb len ((cur : Int) - 1) = if cur = 0 then len - 1 else cur - 1 := by
  unfold set_current_tab_nb
  split_ifs <;> omega

theorem skipGapsUp_spec (l : List Tab) (h0 : (l.get? 0).any Tab.truthy = true) :
    ∀ (fuel cur : Nat), cur < l.length →
      (if cur = 0 then 0 else l.length - cur) < fuel →
      skipGapsUp l cur fuel < l.length ∧
      (l.get? (skipGapsUp l cur fuel)).any Tab.truthy = true := by
  intro fuel
  induction fuel with
  | zero =>
    intro cur _ hd
    exact absurd hd (Nat.not_lt_zero _)
  | succ f ih =>
    intro cur hcur hd
    rw [skipGapsUp]
    by_cases hc : (l.get? cur).any Tab.truthy = true
    · rw [if_pos hc]
      exact ⟨hcur, hc⟩
    · rw [if_neg hc]
      have hcur0 : cur ≠ 0 := by
        intro h
        rw [h] at hc
        exact hc h0
      rw [if_neg hcur0] at hd
      rw [set_current_tab_nb_inc]
      by_cases hw : cur + 1 ≥ l.length
      · rw [if_pos hw]
        exact ih 0 (by omega) (by rw [if_pos rfl]; omega)
      · rw [if_neg hw]
        exact ih (cur + 1) (by omega) (by rw [if_neg (by omega : ¬ cur + 1 = 0)]; omega)

theorem skipGapsDown_spec (l : List Tab) (h0 : (l.get? 0).any Tab.truthy = true) :
    ∀ (fuel cur : Nat), cur < l.length → cur < fuel →
      skipGapsDown l cur fuel < l.length ∧
      (l.get? (skipGapsDown l cur fuel)).any Tab.truthy = true := by
  intro fuel
  induction fuel with
  | zero =>
    intro cur _ hd
    exact absurd hd (Nat.not_lt_zero _)
  | succ f ih =>
    intro cur hcur hd
    rw [skipGapsDown]
    by_cases hc : (l.get? cur).any Tab.truthy = true
    · rw [if_pos hc]
      exact ⟨hcur, hc⟩
    · rw [if_neg hc]
      have hcur0 : cur ≠ 0 := by
        intro h
        rw [h] at hc
        exact hc h0
      rw [set_current_tab_nb_dec l.length cur hcur, if_neg hcur0]
      exact ih (cur - 1) (by omega) (by omega)

theorem length_pos_of_head_any (l : List Tab) (h0 : (l.get? 0).any Tab.truthy = true) :
    1 ≤ l.length := by
  cases l with
  | nil => simp [Option.any] at h0
  | cons x xs => simp

theorem rotate_rooms_right_spec (l : List Tab) (cur : Nat)
    (h0 : (l.get? 0).any Tab.truthy = true) :
    rotate_rooms_right l cur < l.length ∧
    (l.get? (rotate_rooms_right l cur)).any Tab.truthy = true := by
  have hlen1 := length_pos_of_head_any l h0
  unfold rotate_rooms_right
  exact skipGapsUp_spec l h0 (l.length + 1) _
    (set_current_tab_nb_lt _ _ hlen1) (by split_ifs <;> omega)

theorem rotate_rooms_left_spec (l : List Tab) (cur : Nat)
    (h0 : (l.get? 0).any Tab.truthy = true) :
    rotate_rooms_left l cur < l.length ∧
    (l.get? (rotate_rooms_left l cur)).any Tab.truthy = true := by
  have hlen1 := length_pos_of_head_any l h0
  unfold rotate_rooms_left
  exact skipGapsDown_spec l h0 (l.length + 1) _
    (set_current_tab_nb_lt _ _ hlen1)
    (by have := set_current_tab_nb_lt l.length ((cur : Int) - 1) hlen1; omega)

theorem focus_fix_spec (l' : List Tab) (cur : Nat) (h0' : l'.get? 0 = some Tab.roster) :
    skipGapsDown l'
      (if cur ≥ l'.length then set_current_tab_nb l'.length ((l'.length : Int) - 1) else cur)
      (l'.length + 1) < l'.length ∧
    (l'.get? (skipGapsDown l'
      (if cur ≥ l'.length then set_current_tab_nb l'.length ((l'.length : Int) - 1) else cur)
      (l'.length + 1))).any Tab.truthy = true := by
  have hany : (l'.get? 0).any Tab.truthy = true := by
    rw [h0']
    rfl
  have hlen1 := length_pos_of_head_any l' hany
  by_cases hge : cur ≥ l'.length
  · rw [if_pos hge]
    exact skipGapsDown_spec l' hany _ _ (set_current_tab_nb_lt _ _ hlen1)
      (by have := set_current_tab_nb_lt l'.length ((l'.length : Int) - 1) hlen1; omega)
  · rw [if_neg hge]
    push_neg at hge
    exact skipGapsDown_spec l' hany _ _ hge (by omega)

theorem close_mut_head (l : List Tab) (g : Bool) (idx : Nat) (t : Tab)
    (h0 : l.get? 0 = some Tab.roster) (hidx : l.get? idx = some t) (hnr : t ≠ Tab.roster) :
    (if g then
      (if idx + 1 ≥ l.length then trimTrailingFalsy (l.eraseIdx idx) else l.set idx Tab.gap)
     else l.eraseIdx idx).get? 0 = some Tab.roster := by
  have hidx0 : idx ≠ 0 := by
    intro h
    rw [h, h0] at hidx
    exact hnr (Option.some.inj hidx).symm
  have herase : (l.eraseIdx idx).get? 0 = some Tab.roster := by
    rw [eraseIdx_get?_lt l idx 0 (by omega)]
    exact h0
  cases g with
  | false => exact herase
  | true =>
    show (if idx + 1 ≥ l.length then trimTrailingFalsy (l.eraseIdx idx)
      else l.set idx Tab.gap).get? 0 = some Tab.roster
    by_cases hend : idx + 1 ≥ l.length
    · rw [if_pos hend, trimFalsy_eq_trimGaps]
      exact (trim_inv_of_head _ herase).1
    · rw [if_neg hend, List.get?_set_ne _ _ (by omega : idx ≠ 0)]
      exact h0

theorem close_tab_focus_spec (l : List Tab) (g : Bool) (cur idx : Nat)
    (h0 : l.get? 0 = some Tab.roster) (hcur : cur < l.length)
    (hcurok : (l.get? cur).any Tab.truthy = true) :
    (close_tab l g cur idx).2 < (close_tab l g cur idx).1.length ∧
    ((close_tab l g cur idx).1.get? ((close_tab l g cur idx).2)).any Tab.truthy = true := by
  unfold close_tab
  cases hidx : l.get? idx with
  | none => exact ⟨hcur, hcurok⟩
  | some t =>
    cases t with
    | roster => exact ⟨hcur, hcurok⟩
    | gap =>
      exact focus_fix_spec _ cur
        (close_mut_head l g idx Tab.gap h0 hidx (fun h => Tab.noConfusion h))
    | normal id =>
      exact focus_fix_spec _ cur
        (close_mut_head l g idx (Tab.normal id) h0 hidx (fun h => Tab.noConfusion h))

/-- C7 counterexample: on `[0:Roster, 1:Gap, 2:A]` (index 0 is a non-Gap
roster tab), assigning 1 to the current-tab index through the wrapping setter
leaves the cursor ON the Gap — the setter only wraps, it never checks for
Gaps, so "any assignment … refers to a non-Gap tab" is false. -/
theorem focus_assignment_counterexample :
    tabsC7.get? 0 = some Tab.roster ∧
    set_current_tab_nb tabsC7.length 1 < tabsC7.length ∧
    tabsC7.get? (set_current_tab_nb tabsC7.length 1) = some Tab.gap := by decide

/-- C7 (amended): the wrapping setter always lands in `[0, len)` (wrapping on
overflow and underflow), but guarantees nothing about Gaps; after
`rotate_rooms_right`, `rotate_rooms_left`, or `close_tab` (given a non-Gap
slot 0 and a valid pre-focus for close) the cursor is moreover in range and on
a non-Gap tab. -/
theorem focus_cursor_invariant_amended (l : List Tab) (cur : Nat) (v : Int) (g : Bool)
    (idx : Nat) (h0 : l.get? 0 = some Tab.roster) (hcur : cur < l.length)
    (hcurok : (l.get? cur).any Tab.truthy = true) :
    set_current_tab_nb l.length v < l.length ∧
    (rotate_rooms_right l cur < l.length ∧
      (l.get? (rotate_rooms_right l cur)).any Tab.truthy = true) ∧
    (rotate_rooms_left l cur < l.length ∧
      (l.get? (rotate_rooms_left l cur)).any Tab.truthy = true) ∧
    ((close_tab l g cur idx).2 < (close_tab l g cur idx).1.length ∧
      ((close_tab l g cur idx).1.get? ((close_tab l g cur idx).2)).any Tab.truthy = true) := by
  have hany : (l.get? 0).any Tab.truthy = true := by
    rw [h0]
    rfl
  exact ⟨set_current_tab_nb_lt _ _ (length_pos_of_head_any l hany),
    rotate_rooms_right_spec l cur hany,
    rotate_rooms_left_spec l cur hany,
    close_tab_focus_spec l g cur idx h0 hcur hcurok⟩

/-- Witness for the amended C7: the gap-holding list `[Roster, Gap, A]` with
the cursor on A, an arbitrary assignment value, and closing tab 2. -/
theorem focus_cursor_invariant_amended_witness :
    (tabsC7.get? 0 = some Tab.roster ∧ 2 < tabsC7.length ∧
      (tabsC7.get? 2).any Tab.truthy = true) ∧
    (set_current_tab_nb tabsC7.length 7 < tabsC7.length ∧
    (rotate_rooms_right tabsC7 2 < tabsC7.length ∧
      (tabsC7.get? (rotate_rooms_right tabsC7 2)).any Tab.truthy = true) ∧
    (rotate_rooms_left tabsC7 2 < tabsC7.length ∧
      (tabsC7.get? (rotate_rooms_left tabsC7 2)).any Tab.truthy = true) ∧
    ((close_tab tabsC7 true 2 2).2 < (close_tab tabsC7 true 2 2).1.length ∧
      ((close_tab tabsC7 true 2 2).1.get? ((close_tab tabsC7 true 2 2).2)).any
        Tab.truthy = true)) :=
  ⟨⟨by decide, by decide, by decide⟩,
    focus_cursor_invariant_amended tabsC7 2 7 true 2 (by decide) (by decide) (by decide)⟩

/-! ## Claim theorems about timed events and the paused main loop -/

theorem takeThrough_of_no_match (p : TimedEvent → Bool) :
    ∀ l : List TimedEvent, (∀ x ∈ l, p x = false) → takeThrough p l = l := by
  intro l
  induction l with
  | nil => intro _; rfl
  | cons x xs ih =>
    intro h
    rw [takeThrough, if_neg (by rw [h x (List.mem_cons_self x xs)]; exact Bool.false_ne_true),
      ih (fun y hy => h y (List.mem_cons_of_mem x hy))]

theorem check_timed_events_fst (now : Nat) :
    ∀ l : List TimedEvent,
      (check_timed_events now l).1 = l.eraseP (fun e => e.has_timed_out now && !e.ret) := by
  intro l
  induction l with
  | nil => rfl
  | cons e rest ih =>
    rw [check_timed_events]
    cases hto : e.has_timed_out now with
    | false =>
      simp only [Bool.false_eq_true, if_false]
      rw [List.eraseP_cons_of_neg (by simp [hto])]
      simp only [ih]
    | true =>
      simp only [if_true]
      cases hret : e.ret with
      | false =>
        simp only [Bool.false_eq_true, if_false]
        rw [List.eraseP_cons_of_pos (by simp [hto, hret])]
      | true =>
        simp only [if_true]
        rw [List.eraseP_cons_of_neg (by simp [hto, hret])]
        simp only [ih]

theorem check_timed_events_snd (now : Nat) :
    ∀ l : List TimedEvent,
      (check_timed_events now l).2 =
        ((takeThrough (fun e => e.has_timed_out now && !e.ret) l).filter
          (fun e => e.has_timed_out now)).map TimedEvent.id := by
  intro l
  induction l with
  | nil => rfl
  | cons e rest ih =>
    rw [check_timed_events, takeThrough]
    cases hto : e.has_timed_out now with
    | false =>
      simp only [Bool.false_eq_true, if_false]
      rw [if_neg (by simp [hto])]
      rw [List.filter_cons_of_neg (by simp [hto])]
      simp only [ih]
    | true =>
      simp only [if_true]
      cases hret : e.ret with
      | false =>
        simp only [Bool.false_eq_true, if_false]
        rw [if_pos (by simp [hto, hret])]
        rw [List.filter_cons_of_pos (by simp [hto])]
        simp
      | true =>
        simp only [if_true]
        rw [if_neg (by simp [hto, hret])]
        rw [List.filter_cons_of_pos (by simp [hto])]
        simp only [List.map_cons, ih]

/-- C8 counterexample: two events, both expired at time 5, both with a falsy
callback.  One invocation fires and removes only the FIRST one — the `break`
after the removal leaves the second expired event unfired and pending,
contradicting "fires every event whose deadline has expired". -/
theorem timed_events_not_drained_counterexample :
    (∀ e ∈ eventsC8, e.has_timed_out 5 = true) ∧
    (check_timed_events 5 eventsC8).2 = [1] ∧
    (check_timed_events 5 eventsC8).1 = [⟨0, false, 2⟩] := by decide

/-- C8 (amended): one invocation of `check_timed_events` walks the pending
events in order, firing expired ones, up to and including the FIRST expired
event whose callback returns falsy; that single event is removed and the scan
stops (`break`), leaving every other event — including expired ones after it —
pending for the next idle check.  When every fired callback returns truthy,
every expired event fires and the pending set is unchanged. -/
theorem check_timed_events_break_spec (now : Nat) (l : List TimedEvent) :
    (check_timed_events now l).1 = l.eraseP (fun e => e.has_timed_out now && !e.ret) ∧
    (check_timed_events now l).2 =
      ((takeThrough (fun e => e.has_timed_out now && !e.ret) l).filter
        (fun e => e.has_timed_out now)).map TimedEvent.id ∧
    ((∀ e ∈ l, e.has_timed_out now = true → e.ret = true) →
      (check_timed_events now l).1 = l ∧
      (check_timed_events now l).2 =
        (l.filter (fun e => e.has_timed_out now)).map TimedEvent.id) := by
  have hnom : (∀ e ∈ l, e.has_timed_out now = true → e.ret = true) →
      ∀ e ∈ l, (e.has_timed_out now && !e.ret) = false := by
    intro h e he
    cases hto : e.has_timed_out now with
    | false => rfl
    | true =>
      rw [h e he hto]
      rfl
  refine ⟨check_timed_events_fst now l, check_timed_events_snd now l, fun h => ⟨?_, ?_⟩⟩
  · rw [check_timed_events_fst now l]
    exact List.eraseP_of_forall_not (fun e he => by rw [hnom h e he]; exact Bool.false_ne_true)
  · rw [check_timed_events_snd now l, takeThrough_of_no_match _ l (hnom h)]

/-- Witness for the amended C8: three truthy-callback events at time 10, two
of them expired: both fire, none is removed. -/
theorem check_timed_events_break_spec_witness :
    (∀ e ∈ eventsC8k, e.has_timed_out 10 = true → e.ret = true) ∧
    ((check_timed_events 10 eventsC8k).1 = eventsC8k ∧
     (check_timed_events 10 eventsC8k).2 =
       (eventsC8k.filter (fun e => e.has_timed_out 10)).map TimedEvent.id) :=
  ⟨by decide, (check_timed_events_break_spec 10 eventsC8k).2.2 (by decide)⟩

theorem handle_run_paused_indep (kf kf' : String → Bool) :
    handle_run true kf = handle_run true kf' := by
  funext eff run
  simp [handle_run]

theorem paused_fold (kf : String → Bool) (runs : List (List String)) :
    ∀ eff : LoopEffects,
      (runs.foldl (handle_run true kf) eff).inserted =
        eff.inserted ++ runs.map (fun r => r.headD "") ∧
      (runs.foldl (handle_run true kf) eff).signals = eff.signals + runs.length := by
  induction runs with
  | nil =>
    intro eff
    simp
  | cons r rest ih =>
    intro eff
    have hstep : handle_run true kf eff r =
        ⟨eff.inserted ++ [r.headD ""], eff.signals + 1, eff.bound_calls, eff.typed⟩ := by
      simp [handle_run]
    have hfold : (r :: rest).foldl (handle_run true kf) eff =
        rest.foldl (handle_run true kf) (handle_run true kf eff r) := rfl
    rw [hfold, hstep]
    obtain ⟨h1, h2⟩ :=
      ih ⟨eff.inserted ++ [r.headD ""], eff.signals + 1, eff.bound_calls, eff.typed⟩
    rw [h1, h2]
    constructor
    · simp
    · show eff.signals + 1 + rest.length = eff.signals + (r :: rest).length
      simp only [List.length_cons]
      omega

theorem sepGo_all_plain (n : Nat) :
    ∀ (chars current : List String),
      (∀ t ∈ chars, t.length = 1 ∧ t ≠ "\x1f") → (current ≠ [] ∨ chars ≠ []) →
      sepGo n chars current = [current ++ chars] := by
  intro chars
  induction chars with
  | nil =>
    intro current _ hne
    have hc : current ≠ [] := by
      rcases hne with h | h
      · exact h
      · exact absurd rfl h
    rw [sepGo, if_neg hc, List.append_nil]
  | cons c rest ih =>
    intro current hall hne
    obtain ⟨hc1, hcx⟩ := hall c (List.mem_cons_self c rest)
    rw [sepGo]
    simp only [if_neg hcx, hc1, if_pos]
    rw [ih (current ++ [c]) (fun t ht => hall t (List.mem_cons_of_mem c ht))
      (Or.inl (by simp))]
    simp

theorem sepGo_all_special (n : Nat) :
    ∀ (chars current : List String),
      (∀ t ∈ chars, 2 ≤ t.length ∧ t ≠ "^I") →
      sepGo n chars current =
        (if current = [] then [] else [current]) ++ chars.map (fun c => [c]) := by
  intro chars
  induction chars with
  | nil =>
    intro current _
    rw [sepGo]
    simp
  | cons c rest ih =>
    intro current hall
    obtain ⟨hc2, hcI⟩ := hall c (List.mem_cons_self c rest)
    have hcx : c ≠ "\x1f" := by
      intro h
      rw [h] at hc2
      exact absurd hc2 (by decide)
    rw [sepGo]
    simp only [if_neg hcx]
    rw [if_neg (by omega : ¬ c.length = 1),
      if_neg (fun hand => hcI hand.1),
      ih [] (fun t ht => hall t (List.mem_cons_of_mem c ht))]
    simp

/-- C9 counterexample: a paused batch of the two plain characters "a","b"
forms one run, and only its first token is inserted — "b" is dropped, so not
every token of the batch reaches the input line. -/
theorem paused_inserts_counterexample :
    (process_batch true (fun _ => none) (fun _ => false) ["a", "b"]).inserted = ["a"] ∧
    (process_batch true (fun _ => none) (fun _ => false) ["a", "b"]).inserted ≠ ["a", "b"] ∧
    (process_batch true (fun _ => none) (fun _ => false) ["a", "b"]).signals = 1 := by decide

/-- C9 (amended): while Paused the loop consults no key binding (the result is
independent of the binding table), and for EACH run produced by the splitter
it inserts only the run's FIRST token into the prompt and signals the wait
condition once; special keys (singleton runs) are therefore all inserted
verbatim, but of a multi-character plain run only the first character is
inserted. -/
theorem paused_first_token_spec (aliases : String → Option String)
    (kf kf' : String → Bool) (keys : List String) :
    process_batch true aliases kf keys = process_batch true aliases kf' keys ∧
    (process_batch true aliases kf keys).inserted =
      (separate_chars_from_bindings (keys.map (replace_key_with_bound aliases))).map
        (fun r => r.headD "") ∧
    (process_batch true aliases kf keys).signals =
      (separate_chars_from_bindings (keys.map (replace_key_with_bound aliases))).length ∧
    ((∀ t ∈ keys.map (replace_key_with_bound aliases), 2 ≤ t.length ∧ t ≠ "^I") →
      (process_batch true aliases kf keys).inserted =
        keys.map (replace_key_with_bound aliases)) ∧
    ((∀ t ∈ keys.map (replace_key_with_bound aliases), t.length = 1 ∧ t ≠ "\x1f") →
      keys ≠ [] →
      (process_batch true aliases kf keys).inserted =
        [(keys.map (replace_key_with_bound aliases)).headD ""]) := by
  have hins : (process_batch true aliases kf keys).inserted =
      (separate_chars_from_bindings (keys.map (replace_key_with_bound aliases))).map
        (fun r => r.headD "") := by
    unfold process_batch
    rw [(paused_fold kf _ LoopEffects.empty).1]
    rfl
  have hsig : (process_batch true aliases kf keys).signals =
      (separate_chars_from_bindings (keys.map (replace_key_with_bound aliases))).length := by
    unfold process_batch
    rw [(paused_fold kf _ LoopEffects.empty).2]
    simp [LoopEffects.empty]
  refine ⟨?_, hins, hsig, ?_, ?_⟩
  · unfold process_batch
    rw [handle_run_paused_indep kf kf']
  · intro hall
    rw [hins]
    unfold separate_chars_from_bindings
    rw [sepGo_all_special _ _ [] hall]
    simp
  · intro hall hne
    rw [hins]
    unfold separate_chars_from_bindings
    rw [sepGo_all_plain _ _ [] hall
      (Or.inr (by simpa using hne))]
    simp

/-- Witness for the amended C9: two special keys are both inserted verbatim
while paused, independently of the binding table. -/
theorem paused_first_token_spec_witness :
    (∀ t ∈ (["KEY_BACKSPACE", "KEY_UP"].map (replace_key_with_bound (fun _ => none))),
      2 ≤ t.length ∧ t ≠ "^I") ∧
    (process_batch true (fun _ => none) (fun _ => true)
      ["KEY_BACKSPACE", "KEY_UP"]).inserted =
      ["KEY_BACKSPACE", "KEY_UP"].map (replace_key_with_bound (fun _ => none)) :=
  ⟨by decide,
    (paused_first_token_spec (fun _ => none) (fun _ => true) (fun _ => false)
      ["KEY_BACKSPACE", "KEY_UP"]).2.2.2.1 (by decide)⟩

end Poezio
